import Mathlib

/-!
# Verification of the test-impact analyzer

A shallow embedding, in Lean 4, of the core algorithms of the test-impact
analyzer: the confidence scorer and the semantic strategy of the query
pipeline (`git_diff_processor/git_diff_processor.py`,
`semantic_retrieval/backends/chromadb_backend.py`), the diff classifier and
query builder (`git_diff_processor/utils/diff_parser.py`), the registry
builder (`test_analysis/03_build_test_registry.py` over
`test_analysis/utils/ast_parser.py`), the production-import filter
(`test_analysis/04_extract_static_dependencies.py`), the function-mapping
extractor (`test_analysis/04b_extract_function_calls.py`), the retrying
parser (`parsers/python_parser.py`), the reverse-index query
(`deterministic/utils/db_helpers.py`) and the duplicate remover
(`git_diff_processor/utils/deduplicate_tests.py`).

Python data is modelled with plain Lean data: strings stay strings, Python
`None` becomes `Option.none`, Python floats that only ever hold exact
halves/hundredths (similarity scores, retry delays) become `ℚ`, and SQL
tables become lists of rows.  Every definition is executable.
-/

/-! ## Small Python-semantics helpers -/

/-- Python `int(q)` on a rational: truncation toward zero. -/
def pyInt (q : ℚ) : ℤ := if 0 ≤ q then ⌊q⌋ else ⌈q⌉

/-- Python `s.lower()` (the strings compared here are ASCII). -/
def pyLower (s : String) : String := String.mk (s.data.map Char.toLower)

/-- Python substring test `needle in hay` on the character list of `hay`. -/
def charsContain (needle : List Char) : List Char → Bool
  | [] => needle.isPrefixOf ([] : List Char)
  | c :: rest => needle.isPrefixOf (c :: rest) || charsContain needle rest

/-- Python `needle in hay` for strings. -/
def strContains (hay needle : String) : Bool :=
  charsContain needle.data hay.data

/-- Python `s.startswith(pre)`. -/
def pyStartsWith (s pre : String) : Bool := pre.data.isPrefixOf s.data

/-- Python `s.endswith(suf)`. -/
def pyEndsWith (s suf : String) : Bool := suf.data.reverse.isPrefixOf s.data.reverse

/-- Python `s.split(c)` for a one-character separator, on character lists:
splitting the empty string gives `['']`, separators at the ends give empty
segments. -/
def splitChar (c : Char) : List Char → List (List Char)
  | [] => [[]]
  | a :: rest =>
      let r := splitChar c rest
      if a = c then [] :: r
      else
        match r with
        | h :: t => (a :: h) :: t
        | [] => [[a]]

/-- Python `s.split(c)` for strings. -/
def pySplitChar (c : Char) (s : String) : List String :=
  (splitChar c s.data).map String.mk

/-- Replace every occurrence of a non-empty pattern, Python
`s.replace(pat, rep)`, on character lists (left-to-right, non-overlapping). -/
def replaceChars (pat rep : List Char) : List Char → List Char
  | [] => []
  | c :: rest =>
      if h : pat ≠ [] ∧ pat.isPrefixOf (c :: rest) then
        rep ++ replaceChars pat rep ((c :: rest).drop pat.length)
      else
        c :: replaceChars pat rep rest
  termination_by l => l.length
  decreasing_by
    · simp only [List.length_drop, List.length_cons]
      have : 1 ≤ pat.length := List.length_pos.mpr h.1
      omega
    · simp

/-- Python `s.replace(pat, rep)` for strings (patterns here are non-empty). -/
def pyReplace (s pat rep : String) : String :=
  String.mk (replaceChars pat.data rep.data s.data)

/-- First occurrence split, Python `s.split(sep, 1)` when `sep` occurs:
returns the part before the first occurrence and the rest after it. -/
def splitFirst (sep : List Char) : List Char → Option (List Char × List Char)
  | [] => none
  | c :: rest =>
      if sep ≠ [] ∧ sep.isPrefixOf (c :: rest) then
        some ([], (c :: rest).drop sep.length)
      else (splitFirst sep rest).map (fun p => (c :: p.1, p.2))

/-- Python `'sep'.join(xs)` for strings. -/
def pyJoin (sep : String) (xs : List String) : String :=
  String.mk (List.intercalate sep.data (xs.map String.data))

/-- Python `s[n:]` for strings. -/
def pyDrop (s : String) (n : ℕ) : String := String.mk (s.data.drop n)

/-- Python `s[:-n]` for strings. -/
def pyDropRight (s : String) (n : ℕ) : String :=
  String.mk (s.data.take (s.data.length - n))

/-- First dotted segment of a name: Python `name.split('.')[0]`
(`split` on a non-empty separator never returns an empty list). -/
def firstSegment (name : String) : String :=
  (pySplitChar '.' name).headD ""

/-- Insertion sort by a boolean "less or equal" test, used to model both
Python's `sorted` and SQL `ORDER BY`.  Only membership (and, for a total
transitive `leB`, head-minimality) is ever used in the proofs. -/
def insertLeB {α : Type} (leB : α → α → Bool) (a : α) : List α → List α
  | [] => [a]
  | b :: l => if leB a b then a :: b :: l else b :: insertLeB leB a l

/-- Sort a list by the boolean comparison `leB`. -/
def sortLeB {α : Type} (leB : α → α → Bool) : List α → List α
  | [] => []
  | a :: l => insertLeB leB a (sortLeB leB l)

theorem mem_insertLeB {α : Type} (leB : α → α → Bool) (a x : α) (l : List α) :
    x ∈ insertLeB leB a l ↔ x = a ∨ x ∈ l := by
  induction l with
  | nil => simp [insertLeB]
  | cons b t ih =>
      by_cases h : leB a b
      · simp [insertLeB, h]
      · simp only [insertLeB, h, Bool.false_eq_true, if_false, List.mem_cons, ih]
        tauto

theorem perm_insertLeB {α : Type} (leB : α → α → Bool) (a : α) (l : List α) :
    List.Perm (insertLeB leB a l) (a :: l) := by
  induction l with
  | nil => simp [insertLeB]
  | cons b t ih =>
      by_cases h : leB a b
      · simp [insertLeB, h]
      · simpa [insertLeB, h] using
          (List.Perm.trans (List.Perm.cons b ih) (List.Perm.swap a b t))

theorem perm_sortLeB {α : Type} (leB : α → α → Bool) (l : List α) :
    List.Perm (sortLeB leB l) l := by
  induction l with
  | nil => simp [sortLeB]
  | cons a t ih =>
      exact List.Perm.trans (perm_insertLeB leB a (sortLeB leB t)) (List.Perm.cons a ih)

theorem mem_sortLeB {α : Type} (leB : α → α → Bool) (x : α) (l : List α) :
    x ∈ sortLeB leB l ↔ x ∈ l :=
  (perm_sortLeB leB l).mem_iff

/-- Association-list lookup modelling a Python dict keyed by strings. -/
def alookup {β : Type} (k : String) : List (String × β) → Option β
  | [] => none
  | (k', v) :: rest => if k' = k then some v else alookup k rest

theorem alookup_append {β : Type} (k : String) (l₁ l₂ : List (String × β)) :
    alookup k (l₁ ++ l₂) =
      ((alookup k l₁).rec (alookup k l₂) (fun v => some v) : Option β) := by
  induction l₁ with
  | nil => simp [alookup]
  | cons p t ih =>
      by_cases h : p.1 = k
      · simp [alookup, h]
      · simp [alookup, h, ih]

/-! ## Confidence scorer (`calculate_confidence_score`,
`git_diff_processor/git_diff_processor.py:1378`)

A match reason is one dict appended to `match_details[test_id]` by the
query strategies.  The scorer reads only `type` (`match.get('type','')`)
and `reference_type` (`match.get('reference_type','')`); the other keys
(`similarity`, `confidence`, strategy-specific context) are carried along
but never scored, so the embedding keeps just the scored fields plus the
`similarity` recorded by the semantic strategy. -/

structure MatchReason where
  mtype : String
  refType : String := ""
  similarity : Option ℚ := none
deriving Repr, DecidableEq

/-- Per-match weight: the `if/elif` cascade in the scorer's loop. -/
def matchWeight (m : MatchReason) : ℕ :=
  if m.mtype = "function_level" then 50
  else if m.mtype = "exact" ∧ m.refType = "direct_import" then 45
  else if m.mtype = "exact" ∧ m.refType = "string_ref" then 40
  else if m.mtype = "direct_file" then 35
  else if m.mtype = "integration" then 25
  else if m.mtype = "module" then 15
  else 0

/-- `has_function_level` flag accumulated by the scorer's loop. -/
def hasFunctionLevel (details : List MatchReason) : Bool :=
  details.any (fun m => m.mtype == "function_level")

/-- Test-type bonus: `(test_type or '').lower()` then `unit` → 15,
`integration` → 5, else 0. -/
def typeBonus (testType : Option String) : ℕ :=
  if pyLower (testType.getD "") = "unit" then 15
  else if pyLower (testType.getD "") = "integration" then 5
  else 0

/-- `calculate_confidence_score(match_details, test_type)`: sum of the
per-match weights, plus 20 when any match is `function_level`, plus the
test-type bonus, capped at 100 (`min(score, 100)`). -/
def calculate_confidence_score (details : List MatchReason) (testType : Option String) : ℕ :=
  min ((details.map matchWeight).sum
        + (if hasFunctionLevel details then 20 else 0)
        + typeBonus testType) 100

theorem hasFunctionLevel_of_mem {details : List MatchReason} {m : MatchReason}
    (hm : m ∈ details) (h : m.mtype = "function_level") :
    hasFunctionLevel details = true := by
  simp only [hasFunctionLevel, List.any_eq_true]
  exact ⟨m, hm, by simp [h]⟩

/-- C4: with a `function_level` match present, the weight sum is ≥ 50 and the
bonus 20 fires, so the score is ≥ 70; a `unit` test type adds 15 more. -/
theorem c4_function_level_score_floor (details : List MatchReason)
    (testType : Option String)
    (h : ∃ m ∈ details, m.mtype = "function_level") :
    70 ≤ calculate_confidence_score details testType ∧
    (pyLower (testType.getD "") = "unit" →
      85 ≤ calculate_confidence_score details testType) ∧
    calculate_confidence_score details testType ≤ 100 := by
  obtain ⟨m, hm, hfl⟩ := h
  have hw : (50 : ℕ) ≤ (details.map matchWeight).sum := by
    have : matchWeight m ≤ (details.map matchWeight).sum :=
      List.single_le_sum (by intro x _; exact Nat.zero_le x) _
        (List.mem_map_of_mem matchWeight hm)
    simpa [matchWeight, hfl] using this
  have hflag : (if hasFunctionLevel details then 20 else 0) = 20 := by
    simp [hasFunctionLevel_of_mem hm hfl]
  unfold calculate_confidence_score
  refine ⟨?_, ?_, Nat.min_le_right _ _⟩
  · rw [hflag]; omega
  · intro hunit
    have hb : typeBonus testType = 15 := by simp [typeBonus, hunit]
    rw [hflag, hb]; omega

/-- C4 witness: a single function-level match on a unit test scores 85. -/
theorem c4_function_level_score_floor_witness :
    70 ≤ calculate_confidence_score [⟨"function_level", "", none⟩] (some "unit") ∧
    pyLower ((some "unit" : Option String).getD "") = "unit" ∧
    85 ≤ calculate_confidence_score [⟨"function_level", "", none⟩] (some "unit") ∧
    calculate_confidence_score [⟨"function_level", "", none⟩] (some "unit") ≤ 100 := by
  have h := c4_function_level_score_floor [⟨"function_level", "", none⟩] (some "unit")
    ⟨⟨"function_level", "", none⟩, by simp, rfl⟩
  exact ⟨h.1, by decide, h.2.1 (by decide), h.2.2⟩

/-! ## Semantic strategy (`ChromaDBBackend.search_similar`,
`semantic_retrieval/backends/chromadb_backend.py:128`, and strategy 4 of
`find_affected_tests`, `git_diff_processor/git_diff_processor.py:822`) -/

/-- `SEMANTIC_SCORE_CAP` from `semantic_retrieval/config.py`. -/
def SEMANTIC_SCORE_CAP : ℕ := 60

/-- `DEFAULT_SIMILARITY_THRESHOLD` from `semantic_retrieval/config.py`. -/
def DEFAULT_SIMILARITY_THRESHOLD : ℚ := 3 / 10

/-- `DEFAULT_MAX_RESULTS` from `semantic_retrieval/config.py`. -/
def DEFAULT_MAX_RESULTS : ℕ := 20

/-- One raw hit as returned by `collection.query`: an id, the stored
metadata fields, and a distance.  ChromaDB returns hits sorted by distance
ascending; the model takes that list as input. -/
structure ChromaHit where
  testId : String
  methodName : String := ""
  className : String := ""
  testFilePath : String := ""
  testType : String := "unit"
  distance : ℚ
deriving Repr, DecidableEq

/-- Distance-to-similarity conversion in `search_similar`: distances above
10 are treated as L2 and mapped by `1/(1 + d/100)`, otherwise as cosine and
mapped by `1 - d/2`. -/
def chromaSimilarity (distance : ℚ) : ℚ :=
  if 10 < distance then 1 / (1 + distance / 100) else 1 - distance / 2

/-- Round-half-to-even on a rational, the rounding mode of Python `round`. -/
def roundHalfEven (x : ℚ) : ℤ :=
  let f := ⌊x⌋
  let r := x - f
  if r < 1 / 2 then f
  else if 1 / 2 < r then f + 1
  else if f % 2 = 0 then f else f + 1

/-- Python `round(q, 3)`. -/
def pyRound3 (q : ℚ) : ℚ := (roundHalfEven (q * 1000) : ℚ) / 1000

/-- One result row of `search_similar`: metadata echoed back, the rounded
similarity, and `confidence_score = int(similarity * SEMANTIC_SCORE_CAP)`
computed from the unrounded similarity. -/
structure SemResult where
  testId : String
  methodName : String := ""
  className : String := ""
  testFilePath : String := ""
  testType : String := "unit"
  matchType : String := "semantic"
  similarity : ℚ
  confidenceScore : ℤ
deriving Repr, DecidableEq

/-- `search_similar(query_embedding, similarity_threshold, max_results)`:
walk the hits in order, convert distance to similarity, keep hits at or
above the threshold, and stop once `max_results` rows are collected. -/
def search_similar (hits : List ChromaHit) (similarityThreshold : ℚ)
    (maxResults : ℕ) : List SemResult :=
  (hits.filterMap (fun h =>
    let s := chromaSimilarity h.distance
    if similarityThreshold ≤ s then
      some { testId := h.testId, methodName := h.methodName,
             className := h.className, testFilePath := h.testFilePath,
             testType := h.testType, similarity := pyRound3 s,
             confidenceScore := pyInt (s * SEMANTIC_SCORE_CAP) }
    else none)).take maxResults

/-- A test dict as held in `all_tests` inside `find_affected_tests`: only
the fields the score-attachment step reads (`test_type` via
`test.get('test_type')`) plus the `confidence_score` slot that the step
overwrites (`test['confidence_score'] = calculate_confidence_score(...)`). -/
structure PipelineTest where
  testId : String
  testType : Option String
  similarity : Option ℚ := none
  confidenceScore : ℤ := 0
deriving Repr, DecidableEq

/-- A semantic result viewed as a test dict when it is inserted into
`all_tests` (the dict carries `test_type` from the backend metadata and the
backend's `confidence_score`). -/
def semResultToTest (r : SemResult) : PipelineTest :=
  { testId := r.testId, testType := some r.testType,
    similarity := some r.similarity, confidenceScore := r.confidenceScore }

/-- The match-reason dict strategy 4 records for a newly added test:
`{'type': 'semantic', 'similarity': ..., 'confidence': 'medium'}`. -/
def semanticReason (r : SemResult) : MatchReason :=
  { mtype := "semantic", refType := "", similarity := some r.similarity }

/-- Strategy 4 of `find_affected_tests`: each semantic match whose id is
not already in `all_tests` is added, with match details
`[{'type': 'semantic', ...}]`; ids already present are left untouched. -/
def addSemanticMatches :
    List SemResult → List (String × PipelineTest) × List (String × List MatchReason) →
    List (String × PipelineTest) × List (String × List MatchReason)
  | [], st => st
  | r :: rest, (allTests, matchDetails) =>
      if (alookup r.testId allTests).isSome then
        addSemanticMatches rest (allTests, matchDetails)
      else
        addSemanticMatches rest
          (allTests ++ [(r.testId, semResultToTest r)],
           matchDetails ++ [(r.testId, [semanticReason r])])

/-- Score attachment at the end of `find_affected_tests`: for every test in
`all_tests`, `confidence_score` is set to
`calculate_confidence_score(match_details.get(test_id, []), test_type)`. -/
def attachScores (allTests : List (String × PipelineTest))
    (matchDetails : List (String × List MatchReason)) :
    List (String × PipelineTest) :=
  allTests.map (fun p =>
    (p.1, { p.2 with confidenceScore :=
      (calculate_confidence_score ((alookup p.1 matchDetails).getD []) p.2.testType : ℤ) }))

/-- `find_affected_tests` after strategies 0–3 produced `astTests` /
`astDetails`: run strategy 4 on the semantic matches, attach confidence
scores, and sort by score descending (`sorted(..., reverse=True)`). -/
def find_affected_tests_scored (astTests : List (String × PipelineTest))
    (astDetails : List (String × List MatchReason))
    (semanticMatches : List SemResult) : List (String × PipelineTest) :=
  let st := addSemanticMatches semanticMatches (astTests, astDetails)
  sortLeB (fun a b => b.2.confidenceScore ≤ a.2.confidenceScore)
    (attachScores st.1 st.2)

theorem alookup_eq_none_not_mem {β : Type} {k : String} {l : List (String × β)}
    (h : alookup k l = none) : ∀ v, (k, v) ∉ l := by
  induction l with
  | nil => simp
  | cons p t ih =>
      intro v hv
      cases p with
      | mk a b =>
        by_cases ha : a = k
        · subst ha; simp [alookup] at h
        · rcases List.mem_cons.mp hv with h1 | h1
          · have h2 : k = a ∧ v = b := by simpa using h1
            exact ha h2.1.symm
          · exact ih (by simpa [alookup, ha] using h) v h1

theorem addSemanticMatches_details_stable (sem : List SemResult)
    (ast : List (String × PipelineTest)) (det : List (String × List MatchReason))
    (k : String) (w : List MatchReason) (h : alookup k det = some w) :
    alookup k (addSemanticMatches sem (ast, det)).2 = some w := by
  induction sem generalizing ast det with
  | nil => simpa [addSemanticMatches]
  | cons r rest ih =>
      by_cases hp : (alookup r.testId ast).isSome
      · simpa [addSemanticMatches, hp] using ih ast det h
      · have : alookup k (det ++ [(r.testId, [semanticReason r])]) = some w := by
          rw [alookup_append, h]
        simpa [addSemanticMatches, hp] using
          ih (ast ++ [(r.testId, semResultToTest r)]) _ this

theorem addSemanticMatches_tests_stable (sem : List SemResult)
    (ast : List (String × PipelineTest)) (det : List (String × List MatchReason))
    (tid : String) (t : PipelineTest)
    (hmem : (tid, t) ∈ (addSemanticMatches sem (ast, det)).1)
    (hs : (alookup tid ast).isSome) : (tid, t) ∈ ast := by
  induction sem generalizing ast det with
  | nil => simpa [addSemanticMatches] using hmem
  | cons r rest ih =>
      by_cases hp : (alookup r.testId ast).isSome
      · exact ih ast det (by simpa [addSemanticMatches, hp] using hmem) hs
      · have hne : r.testId ≠ tid := by
          intro he; rw [he] at hp; exact hp hs
        have hs' : (alookup tid (ast ++ [(r.testId, semResultToTest r)])).isSome := by
          rw [alookup_append]
          obtain ⟨v, hv⟩ := Option.isSome_iff_exists.mp hs
          simp [hv]
        have hmem' : (tid, t) ∈ ast ++ [(r.testId, semResultToTest r)] :=
          ih _ _ (by simpa [addSemanticMatches, hp] using hmem) hs'
        rcases List.mem_append.mp hmem' with h1 | h1
        · exact h1
        · exfalso
          have h2 : tid = r.testId ∧ t = semResultToTest r := by simpa using h1
          exact hne h2.1.symm

theorem addSemanticMatches_origin (sem : List SemResult)
    (ast : List (String × PipelineTest)) (det : List (String × List MatchReason))
    (tid : String) (t : PipelineTest)
    (hmem : (tid, t) ∈ (addSemanticMatches sem (ast, det)).1)
    (hast : alookup tid ast = none) (hdet : alookup tid det = none) :
    ∃ r ∈ sem, tid = r.testId ∧ t = semResultToTest r ∧
      alookup tid (addSemanticMatches sem (ast, det)).2 = some [semanticReason r] := by
  induction sem generalizing ast det with
  | nil =>
      exact absurd (by simpa [addSemanticMatches] using hmem)
        (alookup_eq_none_not_mem hast t)
  | cons r rest ih =>
      by_cases hp : (alookup r.testId ast).isSome
      · obtain ⟨r', hr', h1, h2, h3⟩ :=
          ih ast det (by simpa [addSemanticMatches, hp] using hmem) hast hdet
        exact ⟨r', List.mem_cons_of_mem r hr', h1, h2, by
          simpa [addSemanticMatches, hp] using h3⟩
      · by_cases he : r.testId = tid
        · have hlook : alookup tid (ast ++ [(r.testId, semResultToTest r)])
              = some (semResultToTest r) := by
            rw [alookup_append, hast]; simp [alookup, he]
          have hdl : alookup tid (det ++ [(r.testId, [semanticReason r])])
              = some [semanticReason r] := by
            rw [alookup_append, hdet]; simp [alookup, he]
          have hmem' : (tid, t) ∈ ast ++ [(r.testId, semResultToTest r)] :=
            addSemanticMatches_tests_stable rest _ _ tid t
              (by simpa [addSemanticMatches, hp] using hmem) (by simp [hlook])
          have ht : t = semResultToTest r := by
            rcases List.mem_append.mp hmem' with h1 | h1
            · exact absurd h1 (alookup_eq_none_not_mem hast t)
            · have h2 : tid = r.testId ∧ t = semResultToTest r := by simpa using h1
              exact h2.2
          refine ⟨r, List.mem_cons_self r rest, he.symm, ht, ?_⟩
          have := addSemanticMatches_details_stable rest
            (ast ++ [(r.testId, semResultToTest r)]) _ tid [semanticReason r] hdl
          simpa [addSemanticMatches, hp] using this
        · have hast' : alookup tid (ast ++ [(r.testId, semResultToTest r)]) = none := by
            rw [alookup_append, hast]; simp [alookup, he]
          have hdet' : alookup tid (det ++ [(r.testId, [semanticReason r])]) = none := by
            rw [alookup_append, hdet]; simp [alookup, he]
          obtain ⟨r', hr', h1, h2, h3⟩ :=
            ih _ _ (by simpa [addSemanticMatches, hp] using hmem) hast' hdet'
          exact ⟨r', List.mem_cons_of_mem r hr', h1, h2, by
            simpa [addSemanticMatches, hp] using h3⟩

theorem typeBonus_le_15 (t : Option String) : typeBonus t ≤ 15 := by
  unfold typeBonus
  split
  · exact le_refl 15
  · split <;> omega


/-- C1 (amended): a test selected only by the semantic strategy ends up with
its backend score overwritten — `calculate_confidence_score` has no branch
for `'semantic'`, so the final confidence equals the bare test-type bonus
(unit → 15, integration → 5, else 0); in particular it stays at most 15,
hence at most the semantic cap 60, and can still never outrank a name-based
match. -/
theorem c1_semantic_only_final_score
    (astTests : List (String × PipelineTest))
    (astDetails : List (String × List MatchReason))
    (sem : List SemResult) (tid : String) (t : PipelineTest)
    (hast : alookup tid astTests = none)
    (hdet : alookup tid astDetails = none)
    (hmem : (tid, t) ∈ find_affected_tests_scored astTests astDetails sem) :
    t.confidenceScore = (typeBonus t.testType : ℤ) ∧
    t.confidenceScore ≤ 15 ∧ t.confidenceScore ≤ (SEMANTIC_SCORE_CAP : ℤ) := by
  have hmem' : (tid, t) ∈
      attachScores (addSemanticMatches sem (astTests, astDetails)).1
        (addSemanticMatches sem (astTests, astDetails)).2 := by
    simpa [find_affected_tests_scored, mem_sortLeB] using hmem
  simp only [attachScores, List.mem_map] at hmem'
  obtain ⟨p, hp, hpe⟩ := hmem'
  have htid : p.1 = tid := congrArg Prod.fst hpe
  have ht : t = { p.2 with confidenceScore :=
      (calculate_confidence_score
        ((alookup p.1 (addSemanticMatches sem (astTests, astDetails)).2).getD [])
        p.2.testType : ℤ) } := (congrArg Prod.snd hpe).symm
  have hp2 : (tid, p.2) ∈ (addSemanticMatches sem (astTests, astDetails)).1 := by
    rw [← htid]; simpa using hp
  obtain ⟨r, _, h1, h2, h3⟩ := addSemanticMatches_origin sem astTests astDetails
    tid p.2 hp2 hast hdet
  rw [htid, h3] at ht
  have h0 : matchWeight (semanticReason r) = 0 := rfl
  have hfl2 : hasFunctionLevel [semanticReason r] = false := rfl
  have hb := typeBonus_le_15 p.2.testType
  have hsc : calculate_confidence_score [semanticReason r] p.2.testType
      = typeBonus p.2.testType := by
    simp [calculate_confidence_score, h0, hfl2]
    omega
  have htt : t.testType = p.2.testType := by rw [ht]
  have hcs : t.confidenceScore = (typeBonus p.2.testType : ℤ) := by
    rw [ht]; simp [hsc]
  refine ⟨by rw [hcs, htt], ?_, ?_⟩
  · rw [hcs]; exact_mod_cast hb
  · rw [hcs]
    have : typeBonus p.2.testType ≤ SEMANTIC_SCORE_CAP :=
      le_trans hb (by norm_num [SEMANTIC_SCORE_CAP])
    exact_mod_cast this

theorem chromaSimilarity_one : chromaSimilarity 1 = 1 / 2 := by
  norm_num [chromaSimilarity]

theorem pyRound3_half : pyRound3 (1 / 2 : ℚ) = 1 / 2 := by
  have h1 : ((1 : ℚ) / 2) * 1000 = 500 := by norm_num
  have h2 : (⌊(500 : ℚ)⌋ : ℤ) = 500 := by norm_num
  norm_num [pyRound3, roundHalfEven, h1, h2]

theorem pyInt_half_cap : pyInt ((1 / 2 : ℚ) * (SEMANTIC_SCORE_CAP : ℚ)) = 30 := by
  have h1 : ((1 : ℚ) / 2) * (SEMANTIC_SCORE_CAP : ℚ) = 30 := by
    norm_num [SEMANTIC_SCORE_CAP]
  norm_num [pyInt, h1]

/-- Evaluation of the backend on the counterexample input: one hit at cosine
distance 1 yields similarity 1/2 and backend confidence `int(0.5*60) = 30`. -/
theorem c1_search_similar_eval :
    search_similar [{ testId := "test_0001", distance := 1 }]
      DEFAULT_SIMILARITY_THRESHOLD DEFAULT_MAX_RESULTS
    = [{ testId := "test_0001", testType := "unit",
         similarity := 1 / 2, confidenceScore := 30 }] := by
  have hth : DEFAULT_SIMILARITY_THRESHOLD ≤ (1 / 2 : ℚ) := by
    norm_num [DEFAULT_SIMILARITY_THRESHOLD]
  simp only [search_similar, List.filterMap, chromaSimilarity_one]
  rw [if_pos hth, pyRound3_half, pyInt_half_cap]
  simp [DEFAULT_MAX_RESULTS]

/-- Evaluation of the pipeline on the counterexample input: the only match
detail is `{'type': 'semantic'}`, so the attached score is the unit bonus 15. -/
theorem c1_pipeline_eval :
    find_affected_tests_scored [] []
      [{ testId := "test_0001", testType := "unit",
         similarity := 1 / 2, confidenceScore := 30 }]
    = [("test_0001",
        { testId := "test_0001", testType := some "unit",
          similarity := some (1 / 2), confidenceScore := 15 })] := by
  have hsc : calculate_confidence_score
      [semanticReason ({ testId := "test_0001", testType := "unit",
                         similarity := (2 : ℚ)⁻¹, confidenceScore := 30 } : SemResult)]
      (some "unit") = 15 := rfl
  simp [find_affected_tests_scored, addSemanticMatches, alookup, attachScores,
    semResultToTest, sortLeB, insertLeB, hsc]

/-- C1 witness: one semantic hit at cosine distance 1 (similarity 1/2) on a
`unit` test, with strategies 0–3 empty, gets final score 15 = the type bonus. -/
theorem c1_semantic_only_final_score_witness :
    alookup "test_0001" ([] : List (String × PipelineTest)) = none ∧
    alookup "test_0001" ([] : List (String × List MatchReason)) = none ∧
    ("test_0001",
      ({ testId := "test_0001", testType := some "unit", similarity := some (1/2),
         confidenceScore := 15 } : PipelineTest)) ∈
      find_affected_tests_scored [] []
        (search_similar [{ testId := "test_0001", distance := 1 }]
          DEFAULT_SIMILARITY_THRESHOLD DEFAULT_MAX_RESULTS) ∧
    ({ testId := "test_0001", testType := some "unit", similarity := some (1/2),
       confidenceScore := 15 } : PipelineTest).confidenceScore
      = (typeBonus ({ testId := "test_0001", testType := some "unit",
                      similarity := some (1/2),
                      confidenceScore := 15 } : PipelineTest).testType : ℤ) := by
  have hmem : ("test_0001",
      ({ testId := "test_0001", testType := some "unit", similarity := some (1/2),
         confidenceScore := 15 } : PipelineTest)) ∈
      find_affected_tests_scored [] []
        (search_similar [{ testId := "test_0001", distance := 1 }]
          DEFAULT_SIMILARITY_THRESHOLD DEFAULT_MAX_RESULTS) := by
    rw [c1_search_similar_eval, c1_pipeline_eval]
    exact List.mem_singleton.mpr rfl
  exact ⟨rfl, rfl, hmem,
    (c1_semantic_only_final_score [] [] _ "test_0001" _ rfl rfl hmem).1⟩

/-- C1 counterexample: at the concrete input above the backend computes
`int(similarity * 60) = 30`, but the score the query pipeline attaches to
this semantic-only hit is 15 — the claim's equation `score = ⌊sim·60⌋` is
false on the code. -/
theorem c1_counterexample :
    (search_similar [{ testId := "test_0001", distance := 1 }]
        DEFAULT_SIMILARITY_THRESHOLD DEFAULT_MAX_RESULTS).map
      (fun r => r.confidenceScore) = [30] ∧
    (search_similar [{ testId := "test_0001", distance := 1 }]
        DEFAULT_SIMILARITY_THRESHOLD DEFAULT_MAX_RESULTS).map
      (fun r => r.similarity) = [1 / 2] ∧
    (find_affected_tests_scored [] []
        (search_similar [{ testId := "test_0001", distance := 1 }]
          DEFAULT_SIMILARITY_THRESHOLD DEFAULT_MAX_RESULTS)).map
      (fun p => p.2.confidenceScore) = [15] ∧
    pyInt ((1 / 2 : ℚ) * (SEMANTIC_SCORE_CAP : ℚ)) = 30 ∧ (15 : ℤ) ≠ 30 := by
  rw [c1_search_similar_eval]
  refine ⟨by simp, by simp, ?_, pyInt_half_cap, by decide⟩
  rw [c1_pipeline_eval]
  simp

/-! ## Diff classification and query building
(`git_diff_processor/utils/diff_parser.py`)

A `FileChange` is one per-file record of `parse_git_diff`: the file path,
its status, the additions/deletions counters, the recorded changed line
numbers, and the `class`/`def` names seen on added lines. -/

structure FileChange where
  file : String
  status : String
  additions : ℕ := 0
  deletions : ℕ := 0
  changedLines : List ℕ := []
  changedClasses : List String := []
  changedMethods : List String := []
deriving Repr, DecidableEq

/-- Lexicographic boolean comparison of strings by code point, Python's
string ordering (used for `sorted`). -/
def charListLe : List Char → List Char → Bool
  | [], _ => true
  | _ :: _, [] => false
  | a :: as, b :: bs => if a = b then charListLe as bs else decide (a < b)

/-- Python `a <= b` on strings. -/
def strLeB (a b : String) : Bool := charListLe a.data b.data

/-- Python `list(set(xs))`.  CPython's set iteration order is unspecified;
the model keeps one canonical dedup (last occurrences).  No claim below
depends on the order of a `list(set(...))` result. -/
def pySet (xs : List String) : List String := xs.dedup

/-- Python `sorted(list(set(xs)))` for strings. -/
def pySortedSet (xs : List String) : List String := sortLeB strLeB (pySet xs)

/-- Components of a POSIX path (`pathlib.Path(...).parts` for the relative
'/'–separated paths that appear in diffs; empty segments are dropped). -/
def pathComponents (p : String) : List String :=
  (pySplitChar '/' p).filter (fun s => s ≠ "")

/-- `Path(name).stem` given the final component: the name without its last
extension; a name whose only dot is leading (`.bashrc`) keeps it. -/
def stemOfName (name : String) : String :=
  let parts := pySplitChar '.' name
  if 2 ≤ parts.length ∧ parts.headD "" ≠ "" then
    pyJoin "." parts.dropLast
  else name

/-- `Path(p).stem`. -/
def pathStem (p : String) : String := stemOfName ((pathComponents p).getLastD "")

/-- The `skip_dirs` list of `is_production_python_file`. -/
def SKIP_DIRS : List String :=
  ["mlartifacts", "artifacts", "data/", "chromadb_data", "node_modules",
   "__pycache__", ".git", "venv", "env", "frontend", "static", "templates"]

/-- `is_production_python_file(file_path)`: a `.py` file whose lowered path
contains neither `test` nor any skip-directory substring. -/
def is_production_python_file (fp : String) : Bool :=
  if fp = "" ∨ fp = "/dev/null" then false
  else if ¬ pyEndsWith fp ".py" then false
  else if strContains (pyLower fp) "test" ∨ pyEndsWith fp "_test.py" then false
  else if SKIP_DIRS.any (fun d => strContains (pyLower fp) d) then false
  else true

/-- `extract_production_classes_from_file(file_path)`: strip `.py`, turn
path separators into dots, strip a leading `backend.`, and emit the dotted
module name plus (for dotted names) its first segment. -/
def extract_production_classes_from_file (fp : String) : List String :=
  if fp = "" ∨ fp = "/dev/null" then []
  else if ¬ is_production_python_file fp then []
  else
    let base := pyDropRight fp 3
    let m1 := pyReplace (pyReplace base "/" ".") "\\" "."
    let m2 := if pyStartsWith m1 "backend." then pyDrop m1 8 else m1
    let candidates :=
      [m2] ++ (if 1 < (pySplitChar '.' m2).length
               then [(pySplitChar '.' m2).headD ""] else [])
    pySet candidates

/-- `extract_test_file_candidates(file_path)`: the six candidate-name
strategies, collected into a set and returned sorted. -/
def extract_test_file_candidates (fp : String) : List String :=
  if fp = "" ∨ fp = "/dev/null" then []
  else if ¬ pyEndsWith fp ".py" then []
  else
    let comps := pathComponents fp
    let fileStem := stemOfName (comps.getLastD "")
    let parentDir := comps.getD (comps.length - 2) ""
    let c1 := ["test_" ++ fileStem ++ ".py"]
    let c2 := if 1 < comps.length then ["test_" ++ parentDir ++ "_" ++ fileStem ++ ".py"] else []
    let c3 := if 2 ≤ comps.length then ["test_" ++ parentDir ++ "_" ++ fileStem ++ ".py"] else []
    let c4 := ["test_" ++ fileStem ++ "_*.py"]
    let c5 := if strContains fileStem "_"
              then ["test_" ++ pyReplace fileStem "_" "" ++ ".py"] else []
    let c6 := if 2 ≤ comps.length then
        let moduleParts := comps.drop (comps.length - 2)
        let moduleName := pyJoin "." (moduleParts.map (fun p => pyReplace p ".py" ""))
        ["test_" ++ pyReplace moduleName "." "_" ++ ".py"]
      else []
    pySortedSet (c1 ++ c2 ++ c3 ++ c4 ++ c5 ++ c6)

/-- `analyze_file_change_type(file_change)`: `deleted`/`added` from the
status; `comment_only` when there is no class, no method and no added line;
`import_only` when every changed line is in the first 50 lines and no
class/method was touched; else `code`. -/
def analyze_file_change_type (fc : FileChange) : String :=
  if fc.status = "deleted" then "deleted"
  else if fc.status = "added" then "added"
  else if ¬ (fc.changedClasses ≠ [] ∨ fc.changedMethods ≠ [] ∨ 0 < fc.additions) then
    "comment_only"
  else if fc.changedLines ≠ [] ∧
      (fc.changedLines.filter (fun l => l ≤ 50)).length = fc.changedLines.length ∧
      fc.changedClasses = [] ∧ fc.changedMethods = [] then
    "import_only"
  else "code"

/-- The four query lists built by `build_search_queries`. -/
structure SearchQueries where
  exactMatches : List String
  moduleMatches : List String
  filePatterns : List String
  testFileCandidates : List String
deriving Repr, DecidableEq

/-- Per-class step inside `build_search_queries`: append the class to
`exact_matches` and, when the name is dotted, its `<first>.*` pattern to
`module_matches` unless already present. -/
def addClassQueries (acc : SearchQueries) (className : String) : SearchQueries :=
  let acc1 := { acc with exactMatches := acc.exactMatches ++ [className] }
  if strContains className "." then
    let modulePattern := firstSegment className ++ ".*"
    if modulePattern ∈ acc1.moduleMatches then acc1
    else { acc1 with moduleMatches := acc1.moduleMatches ++ [modulePattern] }
  else acc1

/-- Per-file step of `build_search_queries`: `import_only` files are skipped
entirely (`continue`), as are files yielding no production classes;
otherwise the file contributes exact/module/file-pattern/test-candidate
entries. -/
def buildQueriesStep (acc : SearchQueries) (fc : FileChange) : SearchQueries :=
  if analyze_file_change_type fc = "import_only" then acc
  else
    let classes := extract_production_classes_from_file fc.file
    if classes.isEmpty then acc
    else
      let acc1 := classes.foldl addClassQueries acc
      let acc2 :=
        if pyEndsWith fc.file ".py" ∧ pathStem fc.file ≠ "" then
          { acc1 with filePatterns := acc1.filePatterns ++ [pathStem fc.file] }
        else acc1
      { acc2 with testFileCandidates :=
          acc2.testFileCandidates ++ extract_test_file_candidates fc.file }

/-- `build_search_queries(file_changes)`: fold the per-file step over the
diff's files, then `list(set(...))` each of the four lists. -/
def build_search_queries (fcs : List FileChange) : SearchQueries :=
  let r := fcs.foldl buildQueriesStep ⟨[], [], [], []⟩
  ⟨pySet r.exactMatches, pySet r.moduleMatches, pySet r.filePatterns,
   pySet r.testFileCandidates⟩

/-- C2 (amended): a production file whose diff touches only the import block
(every changed line within the first 50, no `class`/`def` line added, at
least one added line) is classified `import_only`, and `build_search_queries`
then skips the file wholesale: not only its module patterns but also its
exact-class matches and direct test-file candidates are suppressed — the
file contributes nothing to the query request. -/
theorem c2_import_only_suppresses_whole_file (fc : FileChange)
    (rest : List FileChange)
    (hstatus : fc.status = "modified")
    (hadd : 0 < fc.additions)
    (hlines : fc.changedLines ≠ [])
    (hle : ∀ l ∈ fc.changedLines, l ≤ 50)
    (hcls : fc.changedClasses = [])
    (hmeth : fc.changedMethods = []) :
    analyze_file_change_type fc = "import_only" ∧
    build_search_queries (fc :: rest) = build_search_queries rest := by
  have hfilter : (fc.changedLines.filter (fun l => l ≤ 50)).length
      = fc.changedLines.length := by
    rw [List.filter_eq_self.mpr (by intro a ha; exact decide_eq_true (hle a ha))]
  have hanalyze : analyze_file_change_type fc = "import_only" := by
    unfold analyze_file_change_type
    rw [hstatus]
    simp [hfilter, hcls, hmeth, hlines, hadd]
  refine ⟨hanalyze, ?_⟩
  unfold build_search_queries
  simp [List.foldl, buildQueriesStep, hanalyze]

/-- C2 witness: a one-file diff adding one import line at line 5 of
`agent/mcp_client.py` is `import_only` and yields an empty query request. -/
theorem c2_import_only_suppresses_whole_file_witness :
    analyze_file_change_type
      { file := "agent/mcp_client.py", status := "modified", additions := 1,
        changedLines := [5] } = "import_only" ∧
    build_search_queries
      [{ file := "agent/mcp_client.py", status := "modified", additions := 1,
         changedLines := [5] }] = build_search_queries [] := by
  exact c2_import_only_suppresses_whole_file
    { file := "agent/mcp_client.py", status := "modified", additions := 1,
      changedLines := [5] } [] rfl (by decide) (by decide)
    (by intro l hl; simp at hl; omega) rfl rfl

/-- C2 counterexample: for that same diff the claim promises that the
direct test-file candidates and the exact-class match `agent.mcp_client`
still fire, but the built query request is empty in every list. -/
theorem c2_counterexample :
    analyze_file_change_type
      { file := "agent/mcp_client.py", status := "modified", additions := 1,
        changedLines := [5] } = "import_only" ∧
    build_search_queries
      [{ file := "agent/mcp_client.py", status := "modified", additions := 1,
         changedLines := [5] }]
      = ⟨[], [], [], []⟩ ∧
    "agent.mcp_client" ∉
      (build_search_queries
        [{ file := "agent/mcp_client.py", status := "modified", additions := 1,
           changedLines := [5] }]).exactMatches ∧
    "test_mcp_client.py" ∉
      (build_search_queries
        [{ file := "agent/mcp_client.py", status := "modified", additions := 1,
           changedLines := [5] }]).testFileCandidates := by
  refine ⟨by decide, by decide, by decide, by decide⟩

/-! ## Production-import filter (`is_production_import`, identical in
`test_analysis/04_extract_static_dependencies.py` and
`test_analysis/04b_extract_function_calls.py`) -/

/-- `TEST_FRAMEWORK_IMPORTS`: a Python set; the loop over it returns
`False` as soon as any member is a string prefix of the import name, so the
result does not depend on iteration order. -/
def TEST_FRAMEWORK_IMPORTS : List String :=
  ["pytest", "unittest", "mock", "unittest.mock", "pytest_mock",
   "pytest_asyncio", "pytest_cov", "test", "tests", "testing"]

/-- The `stdlib_modules` set checked against the first dotted segment. -/
def STDLIB_MODULES : List String :=
  ["os", "sys", "pathlib", "json", "datetime", "typing", "collections",
   "itertools", "functools", "asyncio", "abc", "dataclasses", "enum",
   "logging", "re"]

/-- `is_production_import(import_name)`: `False` when the name *starts
with* any framework entry (a raw `startswith`, not a segment test), or when
its first dotted segment is a known stdlib module; `True` otherwise. -/
def is_production_import (importName : String) : Bool :=
  if TEST_FRAMEWORK_IMPORTS.any (fun fw => pyStartsWith importName fw) then false
  else if STDLIB_MODULES.any (fun m => firstSegment importName = m) then false
  else true

/-- C6 (amended): a reference is production iff **no framework entry is a
string prefix of it** (so `mockingbird.Wing` or `testing_utils.helper` are
rejected even though their top-level segments are not in the allowlist) and
its first dotted segment is not a stdlib module. -/
theorem c6_production_import_characterization (importName : String) :
    is_production_import importName = true ↔
      ((∀ fw ∈ TEST_FRAMEWORK_IMPORTS, ¬ pyStartsWith importName fw) ∧
       firstSegment importName ∉ STDLIB_MODULES) := by
  unfold is_production_import
  constructor
  · intro h
    by_cases h1 : TEST_FRAMEWORK_IMPORTS.any (fun fw => pyStartsWith importName fw)
    · simp [h1] at h
    · by_cases h2 : STDLIB_MODULES.any (fun m => firstSegment importName = m)
      · simp [h1, h2] at h
      · refine ⟨?_, ?_⟩
        · intro fw hfw hstart
          exact h1 (List.any_eq_true.mpr ⟨fw, hfw, hstart⟩)
        · intro hmem
          exact h2 (List.any_eq_true.mpr ⟨_, hmem, by simp⟩)
  · rintro ⟨h1, h2⟩
    have ha : TEST_FRAMEWORK_IMPORTS.any (fun fw => pyStartsWith importName fw) = false := by
      rw [List.any_eq_false]
      intro fw hfw
      simpa using h1 fw hfw
    have hb : STDLIB_MODULES.any (fun m => firstSegment importName = m) = false := by
      rw [List.any_eq_false]
      intro m hm
      simp only [decide_eq_true_eq]
      intro he
      exact h2 (he ▸ hm)
    simp [ha, hb]

/-- C6 counterexample: `mockingbird.Wing` has top-level segment
`mockingbird`, which is in neither allowlist, so the claim calls it
production; the code rejects it because the raw `startswith('mock')` test
fires. -/
theorem c6_counterexample :
    is_production_import "mockingbird.Wing" = false ∧
    firstSegment "mockingbird.Wing" = "mockingbird" ∧
    "mockingbird" ∉ TEST_FRAMEWORK_IMPORTS ∧
    "mockingbird" ∉ STDLIB_MODULES := by
  refine ⟨by decide, by decide, by decide, by decide⟩

/-! ## AST model and fact extractors (`test_analysis/utils/ast_parser.py`)

The embedding models the subset of Python modules this repository's test
files use: a module body of function definitions and (non-nested) class
definitions whose bodies are function definitions.  `ast.walk` is
breadth-first: module-body nodes first, then their children, so walking all
`FunctionDef`s yields top-level functions in body order followed by the
class-body functions class by class.  Each function additionally carries
the string literals passed to `patch`/`Mock`-style calls in its body or
decorators, which is what `extract_string_references` collects. -/

structure PyFunc where
  name : String
  isAsync : Bool := false
  params : List String := []
  decorators : List String := []
  patchStrings : List String := []
  lineNumber : ℕ := 0
deriving Repr, DecidableEq

structure PyClass where
  name : String
  bases : List String := []
  body : List PyFunc := []
  patchStrings : List String := []
  lineNumber : ℕ := 0
deriving Repr, DecidableEq

inductive PyStmt where
  | fn (f : PyFunc)
  | cls (c : PyClass)
deriving Repr, DecidableEq

structure PyModule where
  body : List PyStmt
  moduleLevelPatchStrings : List String := []
deriving Repr, DecidableEq

/-- All `ClassDef` nodes seen by `ast.walk` (body order). -/
def walkClasses (m : PyModule) : List PyClass :=
  m.body.filterMap (fun s => match s with | .cls c => some c | .fn _ => none)

/-- All `FunctionDef`/`AsyncFunctionDef` nodes seen by `ast.walk`:
module-level functions first, then class-body functions. -/
def walkFunctions (m : PyModule) : List PyFunc :=
  m.body.filterMap (fun s => match s with | .fn f => some f | .cls _ => none)
    ++ (walkClasses m).flatMap (fun c => c.body)

/-- `extract_classes(tree)` record for one class: name, bases, method
names, line. -/
structure ClassRec where
  name : String
  bases : List String
  methods : List String
  lineNumber : ℕ
deriving Repr, DecidableEq

/-- `extract_classes(tree)`. -/
def extract_classes (m : PyModule) : List ClassRec :=
  (walkClasses m).map (fun c =>
    { name := c.name, bases := c.bases, methods := c.body.map (fun f => f.name),
      lineNumber := c.lineNumber })

/-- `extract_test_classes(tree)`: classes whose name starts with `Test` or
with a base whose name *contains* `Test`. -/
def extract_test_classes (m : PyModule) : List ClassRec :=
  (extract_classes m).filter (fun c =>
    pyStartsWith c.name "Test" || c.bases.any (fun b => strContains b "Test"))

/-- `extract_functions(tree)` record (`test_analysis` variant: no
enclosing-class field). -/
structure FuncRec where
  name : String
  isAsync : Bool
  params : List String
  lineNumber : ℕ
  decorators : List String
deriving Repr, DecidableEq

/-- `extract_functions(tree)`. -/
def extract_functions (m : PyModule) : List FuncRec :=
  (walkFunctions m).map (fun f =>
    { name := f.name, isAsync := f.isAsync, params := f.params,
      lineNumber := f.lineNumber, decorators := f.decorators })

/-- `extract_test_methods(tree)`: walked functions whose name starts with
`test_`. -/
def extract_test_methods (m : PyModule) : List FuncRec :=
  (extract_functions m).filter (fun f => pyStartsWith f.name "test_")

/-! ## Stage 3: build test registry
(`extract_tests_from_file`, `test_analysis/03_build_test_registry.py:84`) -/

/-- `f"test_{counter:04d}"`. -/
def testIdStr (n : ℕ) : String :=
  let s := toString n
  "test_" ++ String.mk (List.replicate (4 - s.length) '0') ++ s

structure TestRegRow where
  testId : String
  filePath : String
  className : Option String
  methodName : String
  testType : String
  lineNumber : Option ℕ
deriving Repr, DecidableEq

/-- Assign sequential test ids to `(class_name, method_name, line)` triples,
as the two loops of `extract_tests_from_file` do. -/
def numberRows (filePath testType : String) :
    ℕ → List (Option String × String × Option ℕ) → List TestRegRow × ℕ
  | counter, [] => ([], counter)
  | counter, (cn, mn, ln) :: rest =>
      let row : TestRegRow :=
        { testId := testIdStr counter, filePath := filePath, className := cn,
          methodName := mn, testType := testType, lineNumber := ln }
      let (rs, c') := numberRows filePath testType (counter + 1) rest
      (row :: rs, c')

/-- `extract_tests_from_file(filepath, counter)`: if the file has test
classes, one row per `test_`-prefixed method of each test class (class name
attached, line absent); otherwise one row per walked test function (class
name absent, line attached).  A file with both a test class and
free-standing test functions takes the first branch only. -/
def extract_tests_from_file (m : PyModule) (filePath testType : String)
    (counter : ℕ) : List TestRegRow × ℕ :=
  let testClasses := extract_test_classes m
  if ¬ testClasses.isEmpty then
    numberRows filePath testType counter
      (testClasses.flatMap (fun tc =>
        (tc.methods.filter (fun mn => pyStartsWith mn "test_")).map
          (fun mn => (some tc.name, mn, (none : Option ℕ)))))
  else
    numberRows filePath testType counter
      ((extract_test_methods m).map
        (fun f => ((none : Option String), f.name, some f.lineNumber)))

theorem numberRows_pairs (filePath testType : String) (counter : ℕ)
    (pairs : List (Option String × String × Option ℕ)) :
    (numberRows filePath testType counter pairs).1.map
        (fun r => (r.className, r.methodName))
      = pairs.map (fun p => (p.1, p.2.1)) := by
  induction pairs generalizing counter with
  | nil => simp [numberRows]
  | cons p rest ih => cases p with | mk cn q => simp [numberRows, ih]

/-- C3 (amended): the `(class_name, method_name)` pairs registered from a
file are — when the file contains at least one test class — exactly the
`test_`-prefixed methods of its test classes, each with that class's name;
free-standing test functions of such a file get **no** row.  Only when the
file has no test class does every walked test function get a row with
`class_name` absent. -/
theorem c3_registry_rows_characterization (m : PyModule)
    (filePath testType : String) (counter : ℕ)
    (cn : Option String) (mn : String) :
    ((cn, mn) ∈ (extract_tests_from_file m filePath testType counter).1.map
        (fun r => (r.className, r.methodName))) ↔
      (if (extract_test_classes m).isEmpty then
        cn = none ∧ ∃ f ∈ extract_test_methods m, f.name = mn
      else
        ∃ tc ∈ extract_test_classes m,
          cn = some tc.name ∧ mn ∈ tc.methods ∧ pyStartsWith mn "test_") := by
  by_cases he : (extract_test_classes m).isEmpty
  · have heq : extract_tests_from_file m filePath testType counter
        = numberRows filePath testType counter
            ((extract_test_methods m).map
              (fun f => ((none : Option String), f.name, some f.lineNumber))) := by
      unfold extract_tests_from_file
      simp [he]
    rw [heq, numberRows_pairs, he, if_pos rfl]
    simp only [List.map_map, List.mem_map, Function.comp]
    constructor
    · rintro ⟨f, hf, hfe⟩
      have h1 : (none : Option String) = cn := congrArg Prod.fst hfe
      have h2 : f.name = mn := congrArg Prod.snd hfe
      exact ⟨h1.symm, f, hf, h2⟩
    · rintro ⟨hcn, f, hf, hfn⟩
      exact ⟨f, hf, by rw [hcn, hfn]⟩
  · have heq : extract_tests_from_file m filePath testType counter
        = numberRows filePath testType counter
            ((extract_test_classes m).flatMap (fun tc =>
              (tc.methods.filter (fun mn => pyStartsWith mn "test_")).map
                (fun mn => (some tc.name, mn, (none : Option ℕ))))) := by
      unfold extract_tests_from_file
      simp [he]
    rw [heq, numberRows_pairs]
    have hif : ((extract_test_classes m).isEmpty : Bool) = false := by
      simpa using he
    rw [hif, if_neg (by simp)]
    constructor
    · intro hmem
      obtain ⟨p, hp, hpe⟩ := List.mem_map.mp hmem
      obtain ⟨tc, htc, hmem2⟩ := List.mem_flatMap.mp hp
      obtain ⟨mn', hmn', hme⟩ := List.mem_map.mp hmem2
      obtain ⟨hmn'm, hmn'p⟩ := List.mem_filter.mp hmn'
      have hfst : some tc.name = cn := by
        have := congrArg Prod.fst hpe
        rw [← hme] at this
        simpa using this
      have hsnd : mn' = mn := by
        have := congrArg Prod.snd hpe
        rw [← hme] at this
        simpa using this
      exact ⟨tc, htc, hfst.symm, hsnd ▸ hmn'm, hsnd ▸ hmn'p⟩
    · rintro ⟨tc, htc, hcn, hmn, hpre⟩
      refine List.mem_map.mpr ⟨(some tc.name, mn, none), List.mem_flatMap.mpr
        ⟨tc, htc, List.mem_map.mpr ⟨mn, List.mem_filter.mpr ⟨hmn, hpre⟩, rfl⟩⟩,
        by rw [hcn]⟩

/-- C3 counterexample: a file with test class `TestA { test_a }` *and* a
free-standing `test_b` registers exactly one row — `TestA.test_a`; the free
test function `test_b` (which `extract_test_methods` does report) gets no
row, contradicting "one row for every test function". -/
theorem c3_counterexample :
    (extract_tests_from_file
      { body := [.cls { name := "TestA", body := [{ name := "test_a" }] },
                 .fn { name := "test_b" }] }
      "f.py" "unit" 1).1.map (fun r => (r.className, r.methodName))
      = [(some "TestA", "test_a")] ∧
    "test_b" ∈ (extract_test_methods
      { body := [.cls { name := "TestA", body := [{ name := "test_a" }] },
                 .fn { name := "test_b" }] }).map (fun f => f.name) ∧
    ¬ ∃ r ∈ (extract_tests_from_file
      { body := [.cls { name := "TestA", body := [{ name := "test_a" }] },
                 .fn { name := "test_b" }] }
      "f.py" "unit" 1).1, r.methodName = "test_b" := by
  refine ⟨by decide, by decide, by decide⟩

/-! ## Stage 4b: function mappings
(`test_analysis/04b_extract_function_calls.py`) -/

/-- One call site extracted from a test body: the callee name (for
`obj.method()` the final attribute), the leftmost receiver name, the call
kind, and the line.  Only named callees are modelled (unnamed callees are
skipped by the extractor). -/
structure PyCallRec where
  function : String
  object : Option String := none
  ctype : String := "direct"
  lineNumber : ℕ := 0
deriving Repr, DecidableEq

/-- The deny-list of `extract_function_calls`
(`parsers/python_parser.py` / `test_analysis/utils/ast_parser.py`). -/
def TEST_FRAMEWORK_FUNCTIONS : List String :=
  ["assert", "assertEqual", "assertNotEqual", "assertTrue", "assertFalse",
   "assertIn", "assertNotIn", "assertIs", "assertIsNot", "assertIsNone",
   "assertIsNotNone", "assertRaises", "assertRaisesRegex",
   "patch", "Mock", "MagicMock", "AsyncMock", "PropertyMock",
   "pytest", "fixture", "mark", "raises", "parametrize",
   "setUp", "tearDown", "setUpClass", "tearDownClass"]

/-- `extract_function_calls(tree)`: for every walked `test_`-prefixed
function, its call sites minus the deny-list; methods with no surviving
calls are omitted.  Call records live on the `calls` field below. -/
structure PyFuncB where
  fn : PyFunc
  calls : List PyCallRec := []
deriving Repr, DecidableEq

/-- A module paired with the call sites of each of its functions (walk
order), the extra input `extract_function_calls` reads. -/
structure PyModuleB where
  m : PyModule
  callsOf : List (String × List PyCallRec) := []
deriving Repr, DecidableEq

/-- Call sites recorded for a function name (empty when the walk saw none). -/
def callSitesOf (mb : PyModuleB) (name : String) : List PyCallRec :=
  (alookup name mb.callsOf).getD []

/-- `extract_function_calls(tree)`. -/
def extract_function_calls (mb : PyModuleB) : List (String × List PyCallRec) :=
  (walkFunctions mb.m).filterMap (fun f =>
    if ¬ pyStartsWith f.name "test_" then none
    else
      let calls := (callSitesOf mb f.name).filter
        (fun c => c.function ∉ TEST_FRAMEWORK_FUNCTIONS)
      if calls.isEmpty then none else some (f.name, calls))

/-- The `if ref and '.' in ref and not ref.startswith('http')` filter plus
the nested path filter of `extract_string_references`. -/
def stringRefKeep (ref : String) : Bool :=
  ref ≠ "" ∧ strContains ref "." ∧ ¬ pyStartsWith ref "http" ∧
  ¬ pyStartsWith ref "/" ∧ ¬ pyStartsWith ref "\\"

/-- `extract_string_references(tree)`: every string literal passed to a
`patch`/`Mock`-style call or decorator anywhere in the file, filtered by
`stringRefKeep`, deduplicated and sorted (`sorted(list(set(...)))`). -/
def extract_string_references (m : PyModule) : List String :=
  let raw := m.moduleLevelPatchStrings
    ++ m.body.flatMap (fun s =>
        match s with
        | .fn f => f.patchStrings
        | .cls c => c.patchStrings ++ c.body.flatMap (fun f => f.patchStrings))
  pySortedSet (raw.filter stringRefKeep)

/-- `extract_function_from_string_ref(string_ref)`: split on the **last**
dot into `(module, symbol)`; reject refs without a dot, non-production
modules, and single-word modules. -/
def extract_function_from_string_ref (ref : String) : Option (String × String) :=
  if ref = "" ∨ ¬ strContains ref "." then none
  else
    let parts := pySplitChar '.' ref
    let moduleName := pyJoin "." parts.dropLast
    let functionName := parts.getLastD ""
    if ¬ is_production_import moduleName then none
    else if ¬ strContains moduleName "." then none
    else some (moduleName, functionName)

/-- `resolve_object_to_module(object_name, imports_data, ...)`: first
from-import whose imported names contain the object, provided the module is
production; otherwise absent. -/
def resolve_object_to_module (objectName : String)
    (fromImports : List (String × List String)) : Option String :=
  (fromImports.find? (fun p =>
    objectName ∈ p.2 ∧ is_production_import p.1)).map (fun p => p.1)

structure FunctionMapping where
  testMethod : String
  functionName : String
  moduleName : Option String
  objectName : Option String
  callType : String
  source : String
  lineNumber : Option ℕ
deriving Repr, DecidableEq

/-- The mapping built for one surviving call site of a test method. -/
def methodCallMapping (fromImports : List (String × List String))
    (testMethod : String) (call : PyCallRec) : FunctionMapping :=
  { testMethod := testMethod, functionName := call.function,
    moduleName := call.object.bind
      (fun ob => resolve_object_to_module ob fromImports),
    objectName := call.object, callType := call.ctype,
    source := "method_call", lineNumber := some call.lineNumber }

/-- The mapping built for one string reference under a test method, when
`extract_function_from_string_ref` yields a usable `(module, function)`
pair (`if module_name and function_name:`). -/
def patchRefMapping (testMethod : String) (ref : String) :
    Option FunctionMapping :=
  match extract_function_from_string_ref ref with
  | none => none
  | some (mn, fn) =>
      if mn ≠ "" ∧ fn ≠ "" then
        some { testMethod := testMethod, functionName := fn,
               moduleName := some mn, objectName := none,
               callType := "patch_ref", source := "patch_ref",
               lineNumber := none }
      else none

/-- `extract_function_mappings_from_file(filepath, test_methods,
imports_data)`: for **each** test method, its own surviving call sites plus
one `patch_ref` mapping per file-level string reference — the string
references are not attributed to the method that contains them. -/
def extract_function_mappings_from_file (mb : PyModuleB)
    (testMethods : List String)
    (fromImports : List (String × List String)) : List FunctionMapping :=
  let functionCalls := extract_function_calls mb
  let stringRefs := extract_string_references mb.m
  testMethods.flatMap (fun tm =>
    ((alookup tm functionCalls).getD []).map (methodCallMapping fromImports tm)
      ++ stringRefs.filterMap (patchRefMapping tm))

theorem filter_patch_of_method_calls (fromImports : List (String × List String))
    (tm : String) (calls : List PyCallRec) :
    (calls.map (methodCallMapping fromImports tm)).filter
      (fun mp => mp.source = "patch_ref") = [] := by
  induction calls with
  | nil => simp
  | cons c rest ih => simp [methodCallMapping, ih]

theorem filter_patch_of_refs (tm : String) (refs : List String) :
    (refs.filterMap (patchRefMapping tm)).filter
        (fun mp => mp.source = "patch_ref")
      = refs.filterMap (patchRefMapping tm) := by
  induction refs with
  | nil => simp
  | cons r rest ih =>
      cases hr : patchRefMapping tm r with
      | none => simp [List.filterMap_cons, hr, ih]
      | some mp =>
          have hsrc : mp.source = "patch_ref" := by
            unfold patchRefMapping at hr
            cases he : extract_function_from_string_ref r with
            | none => rw [he] at hr; simp at hr
            | some p =>
                obtain ⟨mn, fn⟩ := p
                rw [he] at hr
                dsimp only at hr
                by_cases hc : mn ≠ "" ∧ fn ≠ ""
                · rw [if_pos hc] at hr
                  have := Option.some.inj hr
                  rw [← this]
                · rw [if_neg hc] at hr; simp at hr
          simp [List.filterMap_cons, hr, List.filter_cons, hsrc, ih]

/-- C10: the `patch_ref` mappings produced for a file are exactly one entry
per (test method, usable string reference) pair — every file-level string
reference whose module part is production and dotted is attributed to
**every** test method of the file, independent of where the patch call or
decorator actually sits. -/
theorem c10_patch_refs_for_every_method (mb : PyModuleB)
    (testMethods : List String) (fromImports : List (String × List String)) :
    ((extract_function_mappings_from_file mb testMethods fromImports).filter
        (fun mp => mp.source = "patch_ref")
      = testMethods.flatMap (fun tm =>
          (extract_string_references mb.m).filterMap (patchRefMapping tm))) ∧
    (∀ tm ∈ testMethods, ∀ ref ∈ extract_string_references mb.m,
      ∀ mn fn, extract_function_from_string_ref ref = some (mn, fn) →
        mn ≠ "" → fn ≠ "" →
        ({ testMethod := tm, functionName := fn, moduleName := some mn,
           objectName := none, callType := "patch_ref", source := "patch_ref",
           lineNumber := none } : FunctionMapping) ∈
          extract_function_mappings_from_file mb testMethods fromImports) := by
  constructor
  · unfold extract_function_mappings_from_file
    rw [List.filter_flatMap]
    congr 1
    funext tm
    rw [List.filter_append, filter_patch_of_method_calls, filter_patch_of_refs]
    simp
  · intro tm htm ref href mn fn hparse hmn hfn
    unfold extract_function_mappings_from_file
    refine List.mem_flatMap.mpr ⟨tm, htm, List.mem_append_right _ ?_⟩
    refine List.mem_filterMap.mpr ⟨ref, href, ?_⟩
    unfold patchRefMapping
    rw [hparse]
    simp [hmn, hfn]

/-- C10 witness: a file whose only patch decorator sits on `test_a` still
yields a `patch_ref` mapping attributing `agent.mod.Cls` to `test_b`. -/
theorem c10_patch_refs_for_every_method_witness :
    ("test_b" ∈ ["test_a", "test_b"]) ∧
    ("agent.mod.Cls" ∈ extract_string_references
      { body := [.fn { name := "test_a", patchStrings := ["agent.mod.Cls"] },
                 .fn { name := "test_b" }] }) ∧
    extract_function_from_string_ref "agent.mod.Cls"
      = some ("agent.mod", "Cls") ∧
    ({ testMethod := "test_b", functionName := "Cls",
       moduleName := some "agent.mod", objectName := none,
       callType := "patch_ref", source := "patch_ref",
       lineNumber := none } : FunctionMapping) ∈
      extract_function_mappings_from_file
        { m := { body := [.fn { name := "test_a",
                                patchStrings := ["agent.mod.Cls"] },
                          .fn { name := "test_b" }] } }
        ["test_a", "test_b"] [] := by
  refine ⟨by decide, by decide, by decide, ?_⟩
  exact (c10_patch_refs_for_every_method
    { m := { body := [.fn { name := "test_a",
                            patchStrings := ["agent.mod.Cls"] },
                      .fn { name := "test_b" }] } }
    ["test_a", "test_b"] []).2 "test_b" (by decide) "agent.mod.Cls" (by decide)
    "agent.mod" "Cls" (by decide) (by decide) (by decide)

/-! ## Retrying parser (`PythonParser.parse_file`,
`parsers/python_parser.py:34`)

One loop attempt either returns a parsed tree or raises one of the
exceptions the `try` body can produce; the `except` arms cover
`PermissionError`, `SyntaxError` and the catch-all `Exception`. -/

inductive PyExc where
  | permissionError
  | syntaxError
  | otherExc
deriving Repr, DecidableEq

/-- Outcome of one `open`+`ast.parse` attempt. -/
inductive PyAttempt (α : Type) where
  | ok (tree : α)
  | raised (e : PyExc)
deriving Repr

/-- The `for attempt in range(max_retries)` loop: `remaining` counts the
iterations left, `i` is the current `attempt` index.  `SyntaxError` returns
absent at once; `PermissionError` and other exceptions sleep
`retry_delay * 2 ** attempt` and continue while `attempt < max_retries - 1`,
else return absent.  The returned list records the sleeps performed. -/
def parse_file_loop {α : Type} (attempts : ℕ → PyAttempt α) (retryDelay : ℚ) :
    ℕ → ℕ → Option α × List ℚ
  | _, 0 => (none, [])
  | i, r + 1 =>
      match attempts i with
      | .ok t => (some t, [])
      | .raised .syntaxError => (none, [])
      | .raised _ =>
          if r = 0 then (none, [])
          else
            let rest := parse_file_loop attempts retryDelay (i + 1) r
            (rest.1, retryDelay * 2 ^ i :: rest.2)

/-- `parse_file(filepath, max_retries=3, retry_delay=0.5)`, abstracted over
the per-attempt outcomes for the given path. -/
def parse_file {α : Type} (attempts : ℕ → PyAttempt α)
    (maxRetries : ℕ := 3) (retryDelay : ℚ := 1 / 2) : Option α × List ℚ :=
  parse_file_loop attempts retryDelay 0 maxRetries

/-- `parse_file` with the exception flow made explicit: the result is an
`Except` whose `error` constructor would carry an escaped exception; every
exception the body can raise is caught by an `except` arm, so the function
only ever returns normally. -/
def parse_file_exc {α : Type} (attempts : ℕ → PyAttempt α)
    (maxRetries : ℕ := 3) (retryDelay : ℚ := 1 / 2) :
    Except PyExc (Option α × List ℚ) :=
  .ok (parse_file_loop attempts retryDelay 0 maxRetries)

theorem parse_file_loop_sleeps_le {α : Type} (attempts : ℕ → PyAttempt α)
    (retryDelay : ℚ) (i r : ℕ) :
    (parse_file_loop attempts retryDelay i r).2.length + 1 ≤ max r 1 := by
  induction r generalizing i with
  | zero => simp [parse_file_loop]
  | succ r ih =>
      unfold parse_file_loop
      match attempts i with
      | .ok t => simp
      | .raised .syntaxError => simp
      | .raised .permissionError =>
          by_cases hr : r = 0
          · simp [hr]
          · have := ih (i + 1)
            simp only [hr, if_false]
            simp only [List.length_cons]
            omega
      | .raised .otherExc =>
          by_cases hr : r = 0
          · simp [hr]
          · have := ih (i + 1)
            simp only [hr, if_false]
            simp only [List.length_cons]
            omega

theorem parse_file_loop_sleeps_schedule {α : Type} (attempts : ℕ → PyAttempt α)
    (d : ℚ) (i r : ℕ) :
    ∃ k, (parse_file_loop attempts d i r).2
      = (List.range k).map (fun j => d * 2 ^ (i + j)) := by
  induction r generalizing i with
  | zero => exact ⟨0, by simp [parse_file_loop]⟩
  | succ r ih =>
      unfold parse_file_loop
      match attempts i with
      | .ok t => exact ⟨0, by simp⟩
      | .raised .syntaxError => exact ⟨0, by simp⟩
      | .raised .permissionError =>
          by_cases hr : r = 0
          · exact ⟨0, by simp [hr]⟩
          · obtain ⟨k, hk⟩ := ih (i + 1)
            refine ⟨k + 1, ?_⟩
            simp only [hr, if_false]
            rw [hk, List.range_succ_eq_map, List.map_cons, List.map_map]
            congr 1
            apply List.map_congr_left
            intro j _
            simp only [Function.comp_apply]
            have he : i + 1 + j = i + Nat.succ j := by omega
            rw [he]
      | .raised .otherExc =>
          by_cases hr : r = 0
          · exact ⟨0, by simp [hr]⟩
          · obtain ⟨k, hk⟩ := ih (i + 1)
            refine ⟨k + 1, ?_⟩
            simp only [hr, if_false]
            rw [hk, List.range_succ_eq_map, List.map_cons, List.map_map]
            congr 1
            apply List.map_congr_left
            intro j _
            simp only [Function.comp_apply]
            have he : i + 1 + j = i + Nat.succ j := by omega
            rw [he]

/-- C8: `parse_file` never lets an exception escape (every `try` outcome is
handled), makes at most three attempts (at most two backoff sleeps), sleeps
exactly `0.5 * 2^j` before the `j`-th retry, returns absent immediately on
a permanent `SyntaxError`, and after three transient acquisition failures
gives up returning absent, having slept 0.5s then 1.0s. -/
theorem c8_parse_file_retry_contract {α : Type} (attempts : ℕ → PyAttempt α) :
    (∃ v, parse_file_exc attempts = Except.ok v) ∧
    (parse_file attempts).2.length ≤ 2 ∧
    ((parse_file attempts).2
      = (List.range (parse_file attempts).2.length).map
          (fun j => (1 / 2 : ℚ) * 2 ^ j)) ∧
    (attempts 0 = .raised .syntaxError → parse_file attempts = (none, [])) ∧
    ((∀ i < 3, attempts i = .raised .permissionError) →
      parse_file attempts = (none, [1 / 2, 1])) := by
  refine ⟨⟨parse_file_loop attempts (1 / 2) 0 3, rfl⟩, ?_, ?_, ?_, ?_⟩
  · have h := parse_file_loop_sleeps_le attempts (1 / 2) 0 3
    simp only [parse_file]
    omega
  · obtain ⟨k, hk⟩ := parse_file_loop_sleeps_schedule attempts (1 / 2) 0 3
    simp only [parse_file] at *
    rw [hk]
    simp
  · intro h0
    simp [parse_file, parse_file_loop, h0]
  · intro h
    have h0 := h 0 (by norm_num)
    have h1 := h 1 (by norm_num)
    have h2 := h 2 (by norm_num)
    simp only [parse_file]
    rw [show (3 : ℕ) = 2 + 1 from rfl, parse_file_loop, h0]
    simp only []
    rw [show (2 : ℕ) = 1 + 1 from rfl, parse_file_loop, h1]
    simp only []
    rw [parse_file_loop, h2]
    norm_num

/-- C8 witness: a path that fails acquisition on the first two attempts and
parses on the third returns the tree with sleeps 0.5s and 1.0s; a path that
always fails acquisition returns absent. -/
theorem c8_parse_file_retry_contract_witness :
    (parse_file (fun _ => PyAttempt.raised (α := ℕ) PyExc.permissionError)
      = (none, [1 / 2, 1])) ∧
    (parse_file (fun _ => PyAttempt.raised (α := ℕ) PyExc.syntaxError)
      = (none, [])) ∧
    ∃ v, parse_file_exc (fun _ => PyAttempt.raised (α := ℕ) PyExc.permissionError)
      = Except.ok v := by
  refine ⟨?_, ?_, ?_⟩
  · exact (c8_parse_file_retry_contract
      (fun _ => PyAttempt.raised PyExc.permissionError)).2.2.2.2
      (fun i _ => rfl)
  · exact (c8_parse_file_retry_contract
      (fun _ => PyAttempt.raised PyExc.syntaxError)).2.2.2.1 rfl
  · exact (c8_parse_file_retry_contract
      (fun _ => PyAttempt.raised PyExc.permissionError)).1

/-! ## `PythonParser.extract_functions` / `extract_test_methods`
(`parsers/python_parser.py:129` and `:174`) -/

/-- `hasattr(node, 'parent')` for CPython `ast` nodes, as an attribute
lookup returning the attribute when present: the `ast` module does not set
a `parent` attribute on nodes and nothing in this repository assigns one,
so the lookup fails (returns nothing) on every node. -/
def astParentAttr (_node : PyStmt) : Option PyStmt := none

/-- The enclosing-class search of `PythonParser.extract_functions`:
`class_name = None; parent = node; while hasattr(parent, 'parent'): ...`.
The guard is already false on entry (`astParentAttr` never yields a node),
so the loop body — which would climb `parent.parent` links testing
`isinstance(parent, ast.ClassDef)` — never runs and `class_name` keeps its
initial `None`; the `some` arm below is dead code. -/
def enclosingClassName (node : PyStmt) : Option String :=
  match astParentAttr node with
  | none => none
  | some _ => none

theorem astParentAttr_eq_none (node : PyStmt) : astParentAttr node = none := rfl

/-- A function record of `PythonParser.extract_functions` (the `parsers`
variant, which adds the `class_name` field). -/
structure ParserFuncRec where
  name : String
  isAsync : Bool
  params : List String
  lineNumber : ℕ
  decorators : List String
  className : Option String
deriving Repr, DecidableEq

/-- `PythonParser.extract_functions(ast_tree)`. -/
def parser_extract_functions (m : PyModule) : List ParserFuncRec :=
  (walkFunctions m).map (fun f =>
    { name := f.name, isAsync := f.isAsync, params := f.params,
      lineNumber := f.lineNumber, decorators := f.decorators,
      className := enclosingClassName (.fn f) })

/-- A record of `PythonParser.extract_test_methods`. -/
structure ParserTestMethodRec where
  name : String
  className : Option String
  lineNumber : ℕ
  isAsync : Bool
deriving Repr, DecidableEq

/-- `PythonParser.extract_test_methods(ast_tree)`: the `test_`-prefixed
function records, narrowed to four fields via `func.get('class_name')`. -/
def parser_extract_test_methods (m : PyModule) : List ParserTestMethodRec :=
  ((parser_extract_functions m).filter (fun f => pyStartsWith f.name "test_")).map
    (fun f => { name := f.name, className := f.className,
                lineNumber := f.lineNumber, isAsync := f.isAsync })

/-- C9: every record of `PythonParser.extract_functions` — including those
for functions declared inside a class body — has `class_name = None`,
because the enclosing-class search walks a `parent` attribute AST nodes do
not carry; consequently every `extract_test_methods` record reports
`class_name = None` too. -/
theorem c9_parser_class_name_always_none (m : PyModule) :
    (∀ r ∈ parser_extract_functions m, r.className = none) ∧
    (∀ r ∈ parser_extract_test_methods m, r.className = none) := by
  have h1 : ∀ r ∈ parser_extract_functions m, r.className = none := by
    intro r hr
    obtain ⟨f, _, hfe⟩ := List.mem_map.mp hr
    rw [← hfe]
    rfl
  refine ⟨h1, ?_⟩
  intro r hr
  obtain ⟨f, hf, hfe⟩ := List.mem_map.mp hr
  have := h1 f (List.mem_of_mem_filter hf)
  rw [← hfe]
  exact this

/-- C9 witness: a method declared inside class `TestA` is still reported
with `class_name` absent by both extractors. -/
theorem c9_parser_class_name_always_none_witness :
    (({ name := "test_a", isAsync := false, params := [], lineNumber := 3,
        decorators := [], className := none } : ParserFuncRec) ∈
      parser_extract_functions
        { body := [.cls { name := "TestA",
                          body := [{ name := "test_a", lineNumber := 3 }] }] }) ∧
    ({ name := "test_a", isAsync := false, params := [], lineNumber := 3,
       decorators := [], className := none } : ParserFuncRec).className = none := by
  refine ⟨by decide, ?_⟩
  exact (c9_parser_class_name_always_none
    { body := [.cls { name := "TestA",
                      body := [{ name := "test_a", lineNumber := 3 }] }] }).1
    { name := "test_a", isAsync := false, params := [], lineNumber := 3,
      decorators := [], className := none } (by decide)

/-! ## Reverse-index store query (`get_tests_for_production_class`,
`deterministic/utils/db_helpers.py:260`)

The SQL is `WHERE production_class = %s OR production_class LIKE %s` with
the pattern `f"{production_class}.%"`, deduplicated per `test_id` by
`ROW_NUMBER() OVER (PARTITION BY test_id ORDER BY exact-match-first,
string_ref-first)` and finally ordered by string_ref-first, `test_id`.
`LIKE` is modelled with PostgreSQL semantics: `%` matches any sequence,
`_` any single character, backslash escapes the next pattern character.
Crucially, characters of the queried symbol itself are interpreted as
pattern characters. -/

/-- A compiled `LIKE` pattern element: `%` (any sequence), `_` (any single
character), a literal character, or the never-matching element produced by
a pattern that ends in a lone escape (an error in PostgreSQL). -/
inductive LikeTok where
  | any
  | one
  | lit (c : Char)
  | fail
deriving Repr, DecidableEq

/-- Tokenize a `LIKE` pattern; the flag records a pending backslash escape
(the following character is taken literally). -/
def likeToksAux : Bool → List Char → List LikeTok
  | esc, [] => if esc then [.fail] else []
  | esc, c :: rest =>
      if esc then .lit c :: likeToksAux false rest
      else if c = '\\' then likeToksAux true rest
      else if c = '%' then .any :: likeToksAux false rest
      else if c = '_' then .one :: likeToksAux false rest
      else .lit c :: likeToksAux false rest

/-- Run a tokenized `LIKE` pattern against a string. -/
def likeRun : List LikeTok → List Char → Bool
  | [], s => s.isEmpty
  | t :: ps, s =>
      match t with
      | .any => s.tails.any (fun u => likeRun ps u)
      | .fail => false
      | .one =>
          (match s with
           | [] => false
           | _ :: s' => likeRun ps s')
      | .lit c =>
          (match s with
           | [] => false
           | d :: s' => (c = d) && likeRun ps s')

/-- PostgreSQL `LIKE` on character lists: `%` matches any sequence, `_`
any single character, backslash escapes the next pattern character. -/
def likeMatch (pat s : List Char) : Bool := likeRun (likeToksAux false pat) s

structure RevIndexEntry where
  production_class : String
  test_id : String
  test_file_path : Option String := none
  reference_type : Option String := some "direct_import"
deriving Repr, DecidableEq

structure RegistryRow where
  test_id : String
  file_path : String
  class_name : Option String := none
  method_name : String
  test_type : Option String := none
deriving Repr, DecidableEq

/-- The `WHERE` clause: `production_class = %s OR production_class LIKE
%s` with pattern `S.%`. -/
def likeCond (S : String) (e : RevIndexEntry) : Bool :=
  e.production_class = S || likeMatch (S ++ ".%").data e.production_class.data

/-- The `ORDER BY` key inside `ROW_NUMBER()`: exact match first, then
`string_ref` first (on the raw column value). -/
def rowRank (S : String) (e : RevIndexEntry) : ℕ × ℕ :=
  ((if e.production_class = S then 1 else 2),
   (if e.reference_type = some "string_ref" then 1 else 2))

/-- Strict lexicographic comparison of rank pairs. -/
def rankLtB (a b : ℕ × ℕ) : Bool := a.1 < b.1 || (a.1 = b.1 ∧ a.2 < b.2)

/-- One row of the query result.  `reference_type` holds the Python-side
value `row[4] or 'direct_import'`; the `or`-defaulting only rewrites
NULL/empty values, which are not `'string_ref'` either way, so the final
`ORDER BY` test is unaffected by using the defaulted value. -/
structure ClassQueryRow where
  test_id : String
  test_file_path : Option String
  class_name : Option String
  method_name : String
  reference_type : String
deriving Repr, DecidableEq

/-- Assemble the Python result dict from a joined (index, registry) pair. -/
def mkClassQueryRow (p : RevIndexEntry × RegistryRow) : ClassQueryRow :=
  { test_id := p.1.test_id, test_file_path := p.1.test_file_path,
    class_name := p.2.class_name, method_name := p.2.method_name,
    reference_type :=
      match p.1.reference_type with
      | none => "direct_import"
      | some s => if s = "" then "direct_import" else s }

/-- `JOIN test_registry t ON r.test_id = t.test_id` restricted to the
`WHERE`-matched index rows; `test_id` is the registry's primary key, so
each index row joins its (first) registry row. -/
def c5Joined (idx : List RevIndexEntry) (reg : List RegistryRow) (S : String) :
    List (RevIndexEntry × RegistryRow) :=
  (idx.filter (likeCond S)).filterMap (fun e =>
    (reg.find? (fun t => t.test_id = e.test_id)).map (fun t => (e, t)))

/-- Keys in first-occurrence order (the partitions of `PARTITION BY`, and
the insertion order of a Python dict used for grouping). -/
def firstOccur {α : Type} [DecidableEq α] (xs : List α) : List α :=
  xs.foldl (fun acc x => if x ∈ acc then acc else acc ++ [x]) []

/-- The `rn = 1` row of one partition: the scan-first row among those of
minimal rank (`ROW_NUMBER` breaks rank ties arbitrarily; the model keeps
the first). -/
def bestInGroup (S : String) :
    List (RevIndexEntry × RegistryRow) → Option (RevIndexEntry × RegistryRow)
  | [] => none
  | g :: rest => some (rest.foldl
      (fun b x => if rankLtB (rowRank S x.1) (rowRank S b.1) then x else b) g)

/-- Final `ORDER BY`: `string_ref` first, then `test_id`. -/
def c5OrderLe (r1 r2 : ClassQueryRow) : Bool :=
  let f1 : ℕ := if r1.reference_type = "string_ref" then 1 else 2
  let f2 : ℕ := if r2.reference_type = "string_ref" then 1 else 2
  f1 < f2 || (f1 = f2 ∧ charListLe r1.test_id.data r2.test_id.data)

/-- `get_tests_for_production_class(conn, production_class)`. -/
def get_tests_for_production_class (idx : List RevIndexEntry)
    (reg : List RegistryRow) (S : String) : List ClassQueryRow :=
  sortLeB c5OrderLe
    ((firstOccur ((c5Joined idx reg S).map (fun p => p.1.test_id))).filterMap
      (fun tid => (bestInGroup S
        ((c5Joined idx reg S).filter (fun p => p.1.test_id = tid))).map
          mkClassQueryRow))

theorem mem_foldl_firstOccur {α : Type} [DecidableEq α] (xs : List α)
    (acc : List α) (x : α) :
    x ∈ xs.foldl (fun a y => if y ∈ a then a else a ++ [y]) acc ↔
      x ∈ acc ∨ x ∈ xs := by
  induction xs generalizing acc with
  | nil => simp
  | cons y ys ih =>
      simp only [List.foldl_cons]
      by_cases hy : y ∈ acc
      · rw [if_pos hy, ih]
        constructor
        · rintro (h | h)
          · exact Or.inl h
          · exact Or.inr (List.mem_cons_of_mem y h)
        · rintro (h | h)
          · exact Or.inl h
          · rcases List.mem_cons.mp h with h1 | h1
            · exact Or.inl (h1 ▸ hy)
            · exact Or.inr h1
      · rw [if_neg hy, ih]
        simp only [List.mem_append, List.mem_singleton, List.mem_cons]
        tauto

theorem mem_firstOccur {α : Type} [DecidableEq α] (xs : List α) (x : α) :
    x ∈ firstOccur xs ↔ x ∈ xs := by
  unfold firstOccur
  rw [mem_foldl_firstOccur]
  simp

theorem nodup_foldl_firstOccur {α : Type} [DecidableEq α] (xs : List α)
    (acc : List α) (h : acc.Nodup) :
    (xs.foldl (fun a y => if y ∈ a then a else a ++ [y]) acc).Nodup := by
  induction xs generalizing acc with
  | nil => simpa
  | cons y ys ih =>
      simp only [List.foldl_cons]
      by_cases hy : y ∈ acc
      · rw [if_pos hy]; exact ih acc h
      · rw [if_neg hy]
        refine ih _ ?_
        rw [List.nodup_append]
        refine ⟨h, List.nodup_singleton y, ?_⟩
        intro a ha hay
        rw [List.mem_singleton] at hay
        exact hy (hay ▸ ha)

theorem nodup_firstOccur {α : Type} [DecidableEq α] (xs : List α) :
    (firstOccur xs).Nodup :=
  nodup_foldl_firstOccur xs [] List.nodup_nil

theorem foldl_min_mem {α : Type} (key : α → ℕ × ℕ) (g : α) (rest : List α) :
    rest.foldl (fun b x => if rankLtB (key x) (key b) then x else b) g
      ∈ g :: rest := by
  induction rest generalizing g with
  | nil => simp
  | cons y ys ih =>
      simp only [List.foldl_cons]
      by_cases h : rankLtB (key y) (key g)
      · rw [if_pos h]
        exact List.mem_cons_of_mem g (ih y)
      · rw [if_neg h]
        rcases List.mem_cons.mp (ih g) with h1 | h1
        · rw [h1]; exact List.mem_cons_self _ _
        · exact List.mem_cons_of_mem g (List.mem_cons_of_mem y h1)

theorem foldl_min_minimal {α : Type} (key : α → ℕ × ℕ) (g : α) (rest : List α) :
    ∀ x ∈ g :: rest,
      ¬ rankLtB (key x)
        (key (rest.foldl
          (fun b x => if rankLtB (key x) (key b) then x else b) g)) := by
  induction rest generalizing g with
  | nil =>
      intro x hx
      have hxg : x = g := by simpa using hx
      subst hxg
      simp [rankLtB]
  | cons y ys ih =>
      intro x hx
      simp only [List.foldl_cons]
      by_cases h : rankLtB (key y) (key g)
      · rw [if_pos h]
        rcases List.mem_cons.mp hx with h1 | h1
        · subst h1
          have hy := ih y y (List.mem_cons_self y ys)
          intro hg
          apply hy
          revert h hg
          simp only [rankLtB, Bool.or_eq_true, decide_eq_true_eq,
            Bool.and_eq_true, not_or]
          omega
        · exact ih y x h1
      · rw [if_neg h]
        rcases List.mem_cons.mp hx with h1 | h1
        · rw [h1]; exact ih g g (List.mem_cons_self g ys)
        · rcases List.mem_cons.mp h1 with h2 | h2
          · subst h2
            intro hy
            have hg := ih g g (List.mem_cons_self g ys)
            apply h
            revert hy hg
            simp only [rankLtB, Bool.or_eq_true, decide_eq_true_eq,
              Bool.and_eq_true, not_or]
            omega
          · exact ih g x (List.mem_cons_of_mem g h2)

theorem c5Joined_spec (idx : List RevIndexEntry) (reg : List RegistryRow)
    (S : String) :
    ∀ p ∈ c5Joined idx reg S,
      p.1 ∈ idx ∧ likeCond S p.1 = true ∧ p.2 ∈ reg ∧
      p.2.test_id = p.1.test_id := by
  intro p hp
  unfold c5Joined at hp
  obtain ⟨e, he, hmap⟩ := List.mem_filterMap.mp hp
  obtain ⟨he1, he2⟩ := List.mem_filter.mp he
  cases hf : reg.find? (fun t => t.test_id = e.test_id) with
  | none => rw [hf] at hmap; simp at hmap
  | some t =>
      rw [hf] at hmap
      simp only [Option.map_some'] at hmap
      have hp' : (e, t) = p := Option.some.inj hmap
      rw [← hp']
      refine ⟨he1, he2, List.mem_of_find?_eq_some hf, ?_⟩
      have := List.find?_some hf
      simpa using this

theorem c5Joined_exists (idx : List RevIndexEntry) (reg : List RegistryRow)
    (S : String) (e : RevIndexEntry) (he : e ∈ idx)
    (hc : likeCond S e = true) (t : RegistryRow) (ht : t ∈ reg)
    (htid : t.test_id = e.test_id) :
    ∃ p ∈ c5Joined idx reg S, p.1 = e := by
  have hsome : (reg.find? (fun t => t.test_id = e.test_id)).isSome := by
    rw [List.find?_isSome]
    exact ⟨t, ht, by simpa using htid⟩
  obtain ⟨t', ht'⟩ := Option.isSome_iff_exists.mp hsome
  refine ⟨(e, t'), ?_, rfl⟩
  unfold c5Joined
  refine List.mem_filterMap.mpr ⟨e, List.mem_filter.mpr ⟨he, hc⟩, ?_⟩
  rw [ht']
  rfl

theorem c5_group_best (idx : List RevIndexEntry) (reg : List RegistryRow)
    (S : String) (tid : String)
    (hne : (c5Joined idx reg S).filter (fun p => p.1.test_id = tid) ≠ []) :
    ∃ b, bestInGroup S
        ((c5Joined idx reg S).filter (fun p => p.1.test_id = tid)) = some b ∧
      b ∈ (c5Joined idx reg S).filter (fun p => p.1.test_id = tid) ∧
      ∀ x ∈ (c5Joined idx reg S).filter (fun p => p.1.test_id = tid),
        ¬ rankLtB (rowRank S x.1) (rowRank S b.1) := by
  cases hg : (c5Joined idx reg S).filter (fun p => p.1.test_id = tid) with
  | nil => exact absurd hg hne
  | cons g rest =>
      refine ⟨_, rfl, ?_, ?_⟩
      · exact foldl_min_mem (fun p => rowRank S p.1) g rest
      · exact foldl_min_minimal (fun p => rowRank S p.1) g rest

theorem filterMap_map_id_of {γ : Type} (f : String → Option γ)
    (g : γ → String) (l : List String)
    (h : ∀ x ∈ l, ∃ y, f x = some y ∧ g y = x) :
    (l.filterMap f).map g = l := by
  induction l with
  | nil => simp
  | cons x xs ih =>
      obtain ⟨y, hy, hgy⟩ := h x (List.mem_cons_self x xs)
      rw [List.filterMap_cons, hy, List.map_cons, hgy,
        ih (fun z hz => h z (List.mem_cons_of_mem x hz))]

theorem char_decide_eq_beq (a b : Char) : decide (a = b) = (a == b) := by
  by_cases h : a = b <;> simp [h]

theorem likeRun_any_singleton (s : List Char) : likeRun [.any] s = true := by
  have h0 : likeRun [.any] s = s.tails.any (fun u => likeRun [] u) := rfl
  rw [h0, List.any_eq_true]
  exact ⟨[], (List.mem_tails _ _).mpr List.nil_suffix, rfl⟩

theorem likeToks_literal_append (S : List Char)
    (hS : ∀ c ∈ S, c ≠ '%' ∧ c ≠ '_' ∧ c ≠ '\\') (rest : List Char) :
    likeToksAux false (S ++ rest) = S.map LikeTok.lit ++ likeToksAux false rest := by
  induction S with
  | nil => simp
  | cons c S' ih =>
      obtain ⟨h1, h2, h3⟩ := hS c (List.mem_cons_self c S')
      rw [List.cons_append]
      show likeToksAux false (c :: (S' ++ rest)) = _
      rw [likeToksAux]
      simp only [Bool.false_eq_true, if_false, h1, h2, h3, if_neg]
      rw [ih (fun x hx => hS x (List.mem_cons_of_mem c hx))]
      simp

theorem likeRun_lit_append (S : List Char) (P : List LikeTok) (s : List Char) :
    likeRun (S.map LikeTok.lit ++ P) s
      = (S.isPrefixOf s && likeRun P (s.drop S.length)) := by
  induction S generalizing s with
  | nil => simp [List.isPrefixOf]
  | cons c S' ih =>
      cases s with
      | nil =>
          show likeRun (LikeTok.lit c :: (S'.map LikeTok.lit ++ P)) [] = _
          simp [likeRun, List.isPrefixOf]
      | cons d s' =>
          show likeRun (LikeTok.lit c :: (S'.map LikeTok.lit ++ P)) (d :: s') = _
          rw [likeRun]
          simp only [ih s', List.isPrefixOf, List.length_cons,
            List.drop_succ_cons, char_decide_eq_beq, Bool.and_assoc]

theorem isPrefixOf_append_chars (xs ys zs : List Char) :
    (xs ++ ys).isPrefixOf zs
      = (xs.isPrefixOf zs && ys.isPrefixOf (zs.drop xs.length)) := by
  induction xs generalizing zs with
  | nil => simp [List.isPrefixOf]
  | cons x xs' ih =>
      cases zs with
      | nil => simp [List.isPrefixOf]
      | cons z zs' => simp [List.isPrefixOf, ih, Bool.and_assoc]

theorem likeCond_no_wildcards (S : String)
    (h : ∀ c ∈ S.data, c ≠ '%' ∧ c ≠ '_' ∧ c ≠ '\\') (e : RevIndexEntry) :
    likeCond S e = true ↔
      (e.production_class = S ∨
        ((S ++ ".").data.isPrefixOf e.production_class.data) = true) := by
  unfold likeCond likeMatch
  have hdata : (S ++ ".%").data = S.data ++ ['.', '%'] := rfl
  have htoks : likeToksAux false ['.', '%'] = [.lit '.', .any] := by decide
  have hpat : ∀ t : List Char,
      likeRun [.lit '.', .any] t = (['.'].isPrefixOf t) := by
    intro t
    cases t with
    | nil => decide
    | cons d t' =>
        show likeRun (LikeTok.lit '.' :: [.any]) (d :: t') = _
        rw [likeRun]
        simp only [likeRun_any_singleton, Bool.and_true]
        by_cases hd : ('.' : Char) = d <;>
          simp [hd, List.isPrefixOf, char_decide_eq_beq]
  have hsplit : ((S ++ ".").data).isPrefixOf e.production_class.data
      = (S.data.isPrefixOf e.production_class.data
          && ['.'].isPrefixOf (e.production_class.data.drop S.data.length)) := by
    have hd2 : (S ++ ".").data = S.data ++ ['.'] := rfl
    rw [hd2]
    have := isPrefixOf_append_chars S.data ['.'] e.production_class.data
    simpa using this
  rw [hdata, likeToks_literal_append S.data h ['.', '%'], htoks,
    likeRun_lit_append, hpat, hsplit]
  simp [Bool.or_eq_true, decide_eq_true_eq, Bool.and_eq_true]

/-- C5 (amended): `tests_for_class(S)` returns exactly the tests that have a
ReverseIndexEntry whose `production_class` equals `S` **or matches the SQL
LIKE pattern `S.%`** — wildcard characters inside `S` itself stay active, so
an underscore in `S` matches any single character — and that exist in the
registry; one row per `test_id`, the kept row drawn from an entry of
minimal (exact-match-first, `string_ref`-first) rank.  Only when `S`
contains no LIKE wildcard (`%`, `_`, backslash) does the match condition
coincide with the claim's "equals `S` or starts with `S.`". -/
theorem c5_tests_for_class_characterization (idx : List RevIndexEntry)
    (reg : List RegistryRow) (S : String) :
    (∀ tid : String,
      (∃ row ∈ get_tests_for_production_class idx reg S, row.test_id = tid) ↔
      (∃ e ∈ idx, likeCond S e = true ∧ e.test_id = tid ∧
        ∃ t ∈ reg, t.test_id = tid)) ∧
    ((get_tests_for_production_class idx reg S).map
        (fun r => r.test_id)).Nodup ∧
    (∀ row ∈ get_tests_for_production_class idx reg S,
      ∃ e ∈ idx, likeCond S e = true ∧ e.test_id = row.test_id ∧
        ∀ e' ∈ idx, likeCond S e' = true → e'.test_id = row.test_id →
          ¬ rankLtB (rowRank S e') (rowRank S e) = true) ∧
    ((∀ c ∈ S.data, c ≠ '%' ∧ c ≠ '_' ∧ c ≠ '\\') →
      ∀ e : RevIndexEntry, likeCond S e = true ↔
        (e.production_class = S ∨
          ((S ++ ".").data.isPrefixOf e.production_class.data) = true)) := by
  have hgrp_ne : ∀ tid,
      tid ∈ firstOccur ((c5Joined idx reg S).map (fun p => p.1.test_id)) →
      (c5Joined idx reg S).filter (fun p => p.1.test_id = tid) ≠ [] := by
    intro tid htid hnil
    rw [mem_firstOccur] at htid
    obtain ⟨p, hp, hpe⟩ := List.mem_map.mp htid
    have hmem : p ∈ (c5Joined idx reg S).filter (fun p => p.1.test_id = tid) :=
      List.mem_filter.mpr ⟨hp, by simp [hpe]⟩
    rw [hnil] at hmem
    exact List.not_mem_nil p hmem
  have hmem_result : ∀ row, row ∈ get_tests_for_production_class idx reg S ↔
      ∃ tid ∈ firstOccur ((c5Joined idx reg S).map (fun p => p.1.test_id)),
        ∃ b, bestInGroup S
            ((c5Joined idx reg S).filter (fun p => p.1.test_id = tid))
          = some b ∧ mkClassQueryRow b = row := by
    intro row
    unfold get_tests_for_production_class
    rw [mem_sortLeB, List.mem_filterMap]
    constructor
    · rintro ⟨tid, htid, hsome⟩
      obtain ⟨b, hb, hmk⟩ := Option.map_eq_some'.mp hsome
      exact ⟨tid, htid, b, hb, hmk⟩
    · rintro ⟨tid, htid, b, hb, hmk⟩
      exact ⟨tid, htid, by rw [hb, Option.map_some', hmk]⟩
  refine ⟨?_, ?_, ?_, fun h e => likeCond_no_wildcards S h e⟩
  · intro tid
    constructor
    · rintro ⟨row, hrow, hrid⟩
      obtain ⟨tid', htid', b, hb, hmk⟩ := (hmem_result row).mp hrow
      obtain ⟨b', hbeq, hbmem, _⟩ := c5_group_best idx reg S tid' (hgrp_ne tid' htid')
      have hbb : b = b' := Option.some.inj (hb.symm.trans hbeq)
      rw [← hbb] at hbmem
      obtain ⟨hbJ, hbpred⟩ := List.mem_filter.mp hbmem
      obtain ⟨hin, hlc, htreg, htid_eq⟩ := c5Joined_spec idx reg S b hbJ
      have hrowid : row.test_id = b.1.test_id := by rw [← hmk]; rfl
      refine ⟨b.1, hin, hlc, ?_, b.2, htreg, ?_⟩
      · rw [← hrid, hrowid]
      · rw [htid_eq, ← hrowid, hrid]
    · rintro ⟨e, he, hlc, heid, t, ht, htid⟩
      obtain ⟨p, hpJ, hpe⟩ :=
        c5Joined_exists idx reg S e he hlc t ht (by rw [htid, heid])
      have htid_ids :
          tid ∈ firstOccur ((c5Joined idx reg S).map (fun p => p.1.test_id)) := by
        rw [mem_firstOccur]
        exact List.mem_map.mpr ⟨p, hpJ, by rw [hpe, heid]⟩
      obtain ⟨b, hb, hbmem, _⟩ := c5_group_best idx reg S tid (hgrp_ne tid htid_ids)
      refine ⟨mkClassQueryRow b,
        (hmem_result _).mpr ⟨tid, htid_ids, b, hb, rfl⟩, ?_⟩
      have hbpred := (List.mem_filter.mp hbmem).2
      have hbid : b.1.test_id = tid := by simpa using hbpred
      exact hbid
  · have hbm : (((firstOccur ((c5Joined idx reg S).map (fun p => p.1.test_id))).filterMap
        (fun tid => (bestInGroup S
          ((c5Joined idx reg S).filter (fun p => p.1.test_id = tid))).map
            mkClassQueryRow)).map (fun r => r.test_id))
        = firstOccur ((c5Joined idx reg S).map (fun p => p.1.test_id)) := by
      apply filterMap_map_id_of
      intro tid htid
      obtain ⟨b, hb, hbmem, _⟩ := c5_group_best idx reg S tid (hgrp_ne tid htid)
      refine ⟨mkClassQueryRow b, by rw [hb]; rfl, ?_⟩
      have := (List.mem_filter.mp hbmem).2
      simpa using this
    unfold get_tests_for_production_class
    have hperm := (perm_sortLeB c5OrderLe
      ((firstOccur ((c5Joined idx reg S).map (fun p => p.1.test_id))).filterMap
        (fun tid => (bestInGroup S
          ((c5Joined idx reg S).filter (fun p => p.1.test_id = tid))).map
            mkClassQueryRow))).map (fun r => r.test_id)
    refine hperm.nodup_iff.mpr ?_
    rw [hbm]
    exact nodup_firstOccur _
  · intro row hrow
    obtain ⟨tid', htid', b, hb, hmk⟩ := (hmem_result row).mp hrow
    obtain ⟨b', hbeq, hbmem, hmin⟩ := c5_group_best idx reg S tid' (hgrp_ne tid' htid')
    have hbb : b = b' := Option.some.inj (hb.symm.trans hbeq)
    rw [← hbb] at hbmem hmin
    obtain ⟨hbJ, hbpred⟩ := List.mem_filter.mp hbmem
    obtain ⟨hin, hlc, htreg, htid_eq⟩ := c5Joined_spec idx reg S b hbJ
    have hrowid : row.test_id = b.1.test_id := by rw [← hmk]; rfl
    have hbid : b.1.test_id = tid' := by simpa using hbpred
    refine ⟨b.1, hin, hlc, hrowid.symm, ?_⟩
    intro e' he' hlc' heid'
    have hb2id : b.2.test_id = e'.test_id := by rw [htid_eq, heid', hrowid]
    obtain ⟨p', hp'J, hp'e⟩ := c5Joined_exists idx reg S e' he' hlc' b.2 htreg hb2id
    have hp'grp : p' ∈ (c5Joined idx reg S).filter (fun p => p.1.test_id = tid') := by
      refine List.mem_filter.mpr ⟨hp'J, ?_⟩
      rw [hp'e]
      simp [heid', hrowid, hbid]
    have hm := hmin p' hp'grp
    rw [hp'e] at hm
    exact hm

/-- C5 witness: with one exact entry and its registry row, the set side of
the characterization yields the returned test. -/
theorem c5_tests_for_class_characterization_witness :
    ∃ row ∈ get_tests_for_production_class
        [{ production_class := "agent.mod", test_id := "t1" }]
        [{ test_id := "t1", file_path := "f.py", method_name := "m" }]
        "agent.mod", row.test_id = "t1" := by
  exact ((c5_tests_for_class_characterization
      [{ production_class := "agent.mod", test_id := "t1" }]
      [{ test_id := "t1", file_path := "f.py", method_name := "m" }]
      "agent.mod").1 "t1").mpr
    ⟨{ production_class := "agent.mod", test_id := "t1" }, by decide, by decide,
      rfl, { test_id := "t1", file_path := "f.py", method_name := "m" },
      by decide, rfl⟩

/-- C5 counterexample: querying `a_b` — an underscore is a LIKE wildcard —
returns the test of entry `axb.c`, although `axb.c` neither equals `a_b`
nor starts with `a_b.`; the claim's "exactly the set" fails. -/
theorem c5_counterexample :
    ((get_tests_for_production_class
        [{ production_class := "axb.c", test_id := "t1" }]
        [{ test_id := "t1", file_path := "f.py", method_name := "m" }]
        "a_b").map (fun r => r.test_id) = ["t1"]) ∧
    ¬ (("axb.c" : String) = "a_b" ∨
        (("a_b." : String).data.isPrefixOf ("axb.c" : String).data) = true) := by
  refine ⟨by decide, by decide⟩

/-! ## Duplicate removal (`_normalize_path_for_dedup` and
`remove_duplicate_tests`, `git_diff_processor/utils/deduplicate_tests.py`) -/

theorem charListLe_total (a b : List Char) :
    charListLe a b = true ∨ charListLe b a = true := by
  induction a generalizing b with
  | nil => left; rfl
  | cons c as ih =>
      cases b with
      | nil => right; rfl
      | cons d bs =>
          rcases lt_trichotomy c d with h1 | h1 | h1
          · left; simp [charListLe, ne_of_lt h1, h1]
          · subst h1
            rcases ih bs with h2 | h2
            · left; simpa [charListLe] using h2
            · right; simpa [charListLe] using h2
          · right; simp [charListLe, ne_of_lt h1, h1]

theorem charListLe_antisymm (a b : List Char)
    (h1 : charListLe a b = true) (h2 : charListLe b a = true) : a = b := by
  induction a generalizing b with
  | nil =>
      cases b with
      | nil => rfl
      | cons d bs => simp [charListLe] at h2
  | cons c as ih =>
      cases b with
      | nil => simp [charListLe] at h1
      | cons d bs =>
          by_cases hcd : c = d
          · subst hcd
            simp only [charListLe, if_pos rfl] at h1 h2
            rw [ih bs h1 h2]
          · simp only [charListLe, if_neg hcd, if_neg (Ne.symm hcd),
              decide_eq_true_eq] at h1 h2
            exact absurd h2 (not_lt_of_lt h1)

theorem charListLe_trans (a b c : List Char)
    (h1 : charListLe a b = true) (h2 : charListLe b c = true) :
    charListLe a c = true := by
  induction a generalizing b c with
  | nil => rfl
  | cons x as ih =>
      cases b with
      | nil => simp [charListLe] at h1
      | cons y bs =>
          cases c with
          | nil => simp [charListLe] at h2
          | cons z cs =>
              by_cases hxy : x = y
              · subst hxy
                simp only [charListLe, if_pos rfl] at h1
                by_cases hxz : x = z
                · subst hxz
                  simp only [charListLe, if_pos rfl] at h2 ⊢
                  exact ih bs cs h1 h2
                · simp only [charListLe, if_neg hxz] at h2 ⊢
                  exact h2
              · simp only [charListLe, if_neg hxy, decide_eq_true_eq] at h1
                by_cases hyz : y = z
                · subst hyz
                  simp [charListLe, if_neg hxy, h1]
                · simp only [charListLe, if_neg hyz, decide_eq_true_eq] at h2
                  have hxz : x < z := lt_trans h1 h2
                  simp [charListLe, ne_of_lt hxz, hxz]

theorem pairwise_insertLeB {α : Type} (leB : α → α → Bool)
    (htot : ∀ a b, leB a b = true ∨ leB b a = true)
    (htrans : ∀ a b c, leB a b = true → leB b c = true → leB a c = true)
    (a : α) (l : List α) (h : l.Pairwise (fun x y => leB x y = true)) :
    (insertLeB leB a l).Pairwise (fun x y => leB x y = true) := by
  induction l with
  | nil => simp [insertLeB]
  | cons b t ih =>
      obtain ⟨hb, ht⟩ := List.pairwise_cons.mp h
      by_cases hab : leB a b
      · rw [insertLeB, if_pos hab]
        refine List.pairwise_cons.mpr ⟨?_, h⟩
        intro y hy
        rcases List.mem_cons.mp hy with h1 | h1
        · rw [h1]; exact hab
        · exact htrans a b y hab (hb y h1)
      · rw [insertLeB, if_neg hab]
        refine List.pairwise_cons.mpr ⟨?_, ih ht⟩
        intro y hy
        rcases (mem_insertLeB leB a y t).mp hy with h1 | h1
        · rw [h1]
          rcases htot a b with h2 | h2
          · exact absurd h2 hab
          · exact h2
        · exact hb y h1

theorem pairwise_sortLeB {α : Type} (leB : α → α → Bool)
    (htot : ∀ a b, leB a b = true ∨ leB b a = true)
    (htrans : ∀ a b c, leB a b = true → leB b c = true → leB a c = true)
    (l : List α) :
    (sortLeB leB l).Pairwise (fun x y => leB x y = true) := by
  induction l with
  | nil => simp [sortLeB]
  | cons a t ih => exact pairwise_insertLeB leB htot htrans a (sortLeB leB t) ih

theorem sortLeB_head_min {α : Type} (leB : α → α → Bool)
    (htot : ∀ a b, leB a b = true ∨ leB b a = true)
    (htrans : ∀ a b c, leB a b = true → leB b c = true → leB a c = true)
    (l : List α) (g : α) (rest : List α) (h : sortLeB leB l = g :: rest) :
    ∀ y ∈ l, leB g y = true := by
  intro y hy
  have hmem : y ∈ g :: rest := by rw [← h, mem_sortLeB]; exact hy
  rcases List.mem_cons.mp hmem with h1 | h1
  · rw [h1]
    rcases htot g g with h2 | h2 <;> exact h2
  · have hp := pairwise_sortLeB leB htot htrans l
    rw [h] at hp
    exact (List.pairwise_cons.mp hp).1 y h1

theorem two_le_length_of_mem_ne {α : Type} {a b : α} {l : List α}
    (ha : a ∈ l) (hb : b ∈ l) (hne : a ≠ b) : 2 ≤ l.length := by
  cases l with
  | nil => exact absurd ha (List.not_mem_nil a)
  | cons x t =>
      cases t with
      | nil =>
          have ha' : a = x := by simpa using ha
          have hb' : b = x := by simpa using hb
          exact absurd (ha'.trans hb'.symm) hne
      | cons y u => simp [Nat.le_add_left]

/-- Python `s.replace(chr(92), chr(47))` — a one-character pattern, so a
plain character map is exact. -/
def replaceSlashes (s : String) : String :=
  String.mk (s.data.map (fun c => if c = '\\' then '/' else c))

/-- Python `s.lstrip(slash-backslash)`: drop leading separators. -/
def lstripSlashes (s : String) : String :=
  String.mk (s.data.dropWhile (fun c => c = '/' || c = '\\'))

/-- `Path(p).name` under POSIX `pathlib` semantics for a plain file path
(no trailing separator, as stored in `test_registry.file_path`): the last
slash-separated component. -/
def pathLastName (file_path : String) : String :=
  ((pySplitChar '/' file_path).reverse).headD ""

/-- `Path(p).parent.name` under the same reading: the next-to-last
slash-separated component (empty when the parent is `.` or the root). -/
def pathParentName (file_path : String) : String :=
  ((pySplitChar '/' file_path).reverse.drop 1).headD ""

/-- `_normalize_path_for_dedup` (`deduplicate_tests.py`).  The code first
replaces backslashes by slashes; if `test_repository` occurs it keeps what
follows the first occurrence, strips leading separators and (re-)replaces
backslashes; otherwise it falls back to `parent/name` when the parent
directory is one of the five test directories, else to the bare name. -/
def _normalize_path_for_dedup (file_path : String) : String :=
  match splitFirst "test_repository".data (replaceSlashes file_path).data with
  | some p => replaceSlashes (lstripSlashes (String.mk p.2))
  | none =>
      if pathParentName file_path ∈ ["unit", "integration", "e2e", "tests", "test"] then
        pathParentName file_path ++ "/" ++ pathLastName file_path
      else pathLastName file_path

/-- The grouping key of `find_duplicate_tests`:
`(normalized_path, class_name or empty, method_name)`. -/
def dedupKeyOf (r : RegistryRow) : String × String × String :=
  (_normalize_path_for_dedup r.file_path, r.class_name.getD "", r.method_name)

/-- A row of one of the four child tables (`reverse_index`,
`test_dependencies`, `test_metadata`, `test_function_mapping`).  The
deletes of `remove_duplicate_tests` and the `ON DELETE CASCADE` foreign
keys of `01_create_tables.py` touch only the `test_id` column, so the
remaining columns are abstracted into an opaque row identifier. -/
structure ChildRow where
  rowId : ℕ
  test_id : String
deriving Repr, DecidableEq

/-- The database state relevant to duplicate removal: the registry and
its four child tables. -/
structure Db where
  test_registry : List RegistryRow
  reverse_index : List ChildRow
  test_dependencies : List ChildRow
  test_metadata : List ChildRow
  test_function_mapping : List ChildRow
deriving Repr, DecidableEq

/-- Python comparison `x.test_id <= y.test_id` used by
`sorted(tests, key=lambda x: x.test_id)`. -/
def regLeId (a b : RegistryRow) : Bool := strLeB a.test_id b.test_id

/-- The rows of one dedup group, in registry scan order. -/
def groupOf (reg : List RegistryRow) (k : String × String × String) :
    List RegistryRow :=
  reg.filter (fun r => decide (dedupKeyOf r = k))

/-- `test_ids_to_remove` of `remove_duplicate_tests`: for every group of
more than one row (the `duplicates` dict of `find_duplicate_tests`), all
rows after the first of the group sorted by `test_id`.  The groups are
visited in first-occurrence order of their keys; the resulting id set is
order-independent. -/
def removalIds (reg : List RegistryRow) : List String :=
  (firstOccur (reg.map dedupKeyOf)).flatMap (fun k =>
    if (groupOf reg k).length > 1 then
      ((sortLeB regLeId (groupOf reg k)).drop 1).map (fun r => r.test_id)
    else [])

/-- One `DELETE FROM t WHERE test_id IN (ids)` on a child table; the
`ON DELETE CASCADE` foreign key produces the same deletion on
`test_function_mapping` when the registry rows go. -/
def deleteChild (ids : List String) (t : List ChildRow) : List ChildRow :=
  t.filter (fun c => decide (c.test_id ∉ ids))

/-- `remove_duplicate_tests(dry_run=False)`: explicit deletes on
`reverse_index`, `test_dependencies` and `test_metadata`, then the
registry delete, whose `ON DELETE CASCADE` foreign key clears the
matching `test_function_mapping` rows. -/
def remove_duplicate_tests (db : Db) : Db :=
  { test_registry := db.test_registry.filter
      (fun r => decide (r.test_id ∉ removalIds db.test_registry))
    reverse_index := deleteChild (removalIds db.test_registry) db.reverse_index
    test_dependencies := deleteChild (removalIds db.test_registry) db.test_dependencies
    test_metadata := deleteChild (removalIds db.test_registry) db.test_metadata
    test_function_mapping :=
      deleteChild (removalIds db.test_registry) db.test_function_mapping }

theorem strLeB_antisymm (a b : String)
    (h1 : strLeB a b = true) (h2 : strLeB b a = true) : a = b := by
  have h := charListLe_antisymm a.data b.data h1 h2
  cases a with
  | mk da =>
      cases b with
      | mk db => simp only [String.data] at h; rw [h]

theorem regLeId_total (a b : RegistryRow) :
    regLeId a b = true ∨ regLeId b a = true :=
  charListLe_total a.test_id.data b.test_id.data

theorem regLeId_trans (a b c : RegistryRow)
    (h1 : regLeId a b = true) (h2 : regLeId b c = true) :
    regLeId a c = true :=
  charListLe_trans a.test_id.data b.test_id.data c.test_id.data h1 h2

theorem mem_groupOf (reg : List RegistryRow) (k : String × String × String)
    (r : RegistryRow) :
    r ∈ groupOf reg k ↔ r ∈ reg ∧ dedupKeyOf r = k := by
  simp [groupOf, List.mem_filter]

theorem sortedGroup_ids_nodup (reg : List RegistryRow)
    (hnd : (reg.map (fun r => r.test_id)).Nodup) (k : String × String × String) :
    ((sortLeB regLeId (groupOf reg k)).map (fun r => r.test_id)).Nodup := by
  have hsub : (groupOf reg k).Sublist reg := List.filter_sublist reg
  have hsub2 : ((groupOf reg k).map (fun r => r.test_id)).Sublist
      (reg.map (fun r => r.test_id)) := hsub.map _
  have hnd2 : ((groupOf reg k).map (fun r => r.test_id)).Nodup :=
    hnd.sublist hsub2
  have hperm : List.Perm ((sortLeB regLeId (groupOf reg k)).map (fun r => r.test_id))
      ((groupOf reg k).map (fun r => r.test_id)) :=
    (perm_sortLeB regLeId (groupOf reg k)).map _
  exact hperm.nodup_iff.mpr hnd2

theorem mem_removalIds_intro (reg : List RegistryRow) (r : RegistryRow)
    (hr : r ∈ reg)
    (hd : r ∈ (sortLeB regLeId (groupOf reg (dedupKeyOf r))).drop 1) :
    r.test_id ∈ removalIds reg := by
  have hk : dedupKeyOf r ∈ firstOccur (reg.map dedupKeyOf) :=
    (mem_firstOccur _ _).mpr (List.mem_map_of_mem dedupKeyOf hr)
  have hlen : 1 < (groupOf reg (dedupKeyOf r)).length := by
    have h1 : (sortLeB regLeId (groupOf reg (dedupKeyOf r))).drop 1 ≠ [] :=
      List.ne_nil_of_mem hd
    have h2 : (sortLeB regLeId (groupOf reg (dedupKeyOf r))).length - 1 ≠ 0 := by
      intro h0
      exact h1 (List.eq_nil_of_length_eq_zero (by rw [List.length_drop, h0]))
    have h3 := (perm_sortLeB regLeId (groupOf reg (dedupKeyOf r))).length_eq
    omega
  rw [removalIds]
  refine List.mem_flatMap.mpr ⟨dedupKeyOf r, hk, ?_⟩
  rw [if_pos hlen]
  exact List.mem_map_of_mem (fun r => r.test_id) hd

theorem mem_removalIds_elim (reg : List RegistryRow) (tid : String)
    (h : tid ∈ removalIds reg) :
    ∃ x ∈ reg, x.test_id = tid ∧
      x ∈ (sortLeB regLeId (groupOf reg (dedupKeyOf x))).drop 1 := by
  rw [removalIds] at h
  obtain ⟨k, _, hmem⟩ := List.mem_flatMap.mp h
  by_cases hlen : 1 < (groupOf reg k).length
  · rw [if_pos hlen] at hmem
    obtain ⟨x, hx, hxid⟩ := List.mem_map.mp hmem
    have hxs : x ∈ sortLeB regLeId (groupOf reg k) := List.mem_of_mem_drop hx
    have hxg : x ∈ groupOf reg k := (mem_sortLeB _ _ _).mp hxs
    obtain ⟨hxr, hxk⟩ := (mem_groupOf reg k x).mp hxg
    exact ⟨x, hxr, hxid, by rw [hxk]; exact hx⟩
  · rw [if_neg hlen] at hmem
    exact absurd hmem (List.not_mem_nil tid)

theorem minId_not_removed (reg : List RegistryRow)
    (hnd : (reg.map (fun r => r.test_id)).Nodup) (r : RegistryRow)
    (hr : r ∈ reg)
    (hmin : ∀ r' ∈ reg, dedupKeyOf r' = dedupKeyOf r →
      strLeB r.test_id r'.test_id = true) :
    r.test_id ∉ removalIds reg := by
  intro habs
  obtain ⟨x, hxr, hxid, hxd⟩ := mem_removalIds_elim reg r.test_id habs
  have hxe : x = r := List.inj_on_of_nodup_map hnd hxr hr hxid
  rw [hxe] at hxd
  rcases hs : sortLeB regLeId (groupOf reg (dedupKeyOf r)) with _ | ⟨g, rest⟩
  · rw [hs] at hxd
    exact absurd hxd (List.not_mem_nil r)
  · rw [hs] at hxd
    simp only [List.drop_succ_cons, List.drop_zero] at hxd
    have hgmem : g ∈ groupOf reg (dedupKeyOf r) := by
      rw [← mem_sortLeB regLeId, hs]
      exact List.mem_cons_self g rest
    obtain ⟨hgr, hgk⟩ := (mem_groupOf _ _ _).mp hgmem
    have h1 : strLeB r.test_id g.test_id = true := hmin g hgr hgk
    have hrg : r ∈ groupOf reg (dedupKeyOf r) :=
      (mem_groupOf _ _ _).mpr ⟨hr, rfl⟩
    have h2 : regLeId g r = true :=
      sortLeB_head_min regLeId regLeId_total regLeId_trans
        (groupOf reg (dedupKeyOf r)) g rest hs r hrg
    have hid : r.test_id = g.test_id := strLeB_antisymm _ _ h1 h2
    have hndg := sortedGroup_ids_nodup reg hnd (dedupKeyOf r)
    rw [hs] at hndg
    have hginrest : g.test_id ∈ rest.map (fun r => r.test_id) := by
      rw [← hid]
      exact List.mem_map_of_mem (fun r => r.test_id) hxd
    exact (List.nodup_cons.mp (by simpa using hndg)).1 hginrest

theorem notRemoved_minId (reg : List RegistryRow) (r : RegistryRow)
    (hr : r ∈ reg) (hnr : r.test_id ∉ removalIds reg) :
    ∀ r' ∈ reg, dedupKeyOf r' = dedupKeyOf r →
      strLeB r.test_id r'.test_id = true := by
  intro r' hr' hk'
  have hrg : r ∈ groupOf reg (dedupKeyOf r) :=
    (mem_groupOf _ _ _).mpr ⟨hr, rfl⟩
  have hrs : r ∈ sortLeB regLeId (groupOf reg (dedupKeyOf r)) :=
    (mem_sortLeB _ _ _).mpr hrg
  rcases hs : sortLeB regLeId (groupOf reg (dedupKeyOf r)) with _ | ⟨g, rest⟩
  · rw [hs] at hrs
    exact absurd hrs (List.not_mem_nil r)
  · rw [hs] at hrs
    rcases List.mem_cons.mp hrs with hre | hrrest
    · have hg : r' ∈ groupOf reg (dedupKeyOf r) :=
        (mem_groupOf _ _ _).mpr ⟨hr', hk'⟩
      have := sortLeB_head_min regLeId regLeId_total regLeId_trans
        (groupOf reg (dedupKeyOf r)) g rest hs r' hg
      rw [hre]
      exact this
    · exfalso
      apply hnr
      apply mem_removalIds_intro reg r hr
      rw [hs]
      simpa using hrrest

/-- **C7.**  For a registry whose `test_id`s are distinct (the column is
the primary key) and whose child tables satisfy the declared foreign keys
into `test_registry`, `remove_duplicate_tests(dry_run=False)` keeps a
registry row iff its `test_id` is smallest (Python string comparison) in
its dedup-key group, every group keeps a representative, and a row of any
of the four child tables — `reverse_index`, `test_dependencies`,
`test_metadata`, and `test_function_mapping` via the `ON DELETE CASCADE`
foreign key — survives iff its test survives. -/
theorem c7_dedup_removal_characterization (db : Db)
    (hnd : (db.test_registry.map (fun r => r.test_id)).Nodup)
    (hfk1 : ∀ c ∈ db.reverse_index,
      ∃ r ∈ db.test_registry, r.test_id = c.test_id)
    (hfk2 : ∀ c ∈ db.test_dependencies,
      ∃ r ∈ db.test_registry, r.test_id = c.test_id)
    (hfk3 : ∀ c ∈ db.test_metadata,
      ∃ r ∈ db.test_registry, r.test_id = c.test_id)
    (hfk4 : ∀ c ∈ db.test_function_mapping,
      ∃ r ∈ db.test_registry, r.test_id = c.test_id) :
    (∀ r : RegistryRow,
        r ∈ (remove_duplicate_tests db).test_registry ↔
          r ∈ db.test_registry ∧
            ∀ r' ∈ db.test_registry, dedupKeyOf r' = dedupKeyOf r →
              strLeB r.test_id r'.test_id = true) ∧
    (∀ r ∈ db.test_registry,
        ∃ r' ∈ (remove_duplicate_tests db).test_registry,
          dedupKeyOf r' = dedupKeyOf r) ∧
    (∀ c : ChildRow,
        c ∈ (remove_duplicate_tests db).reverse_index ↔
          c ∈ db.reverse_index ∧
            c.test_id ∈ (remove_duplicate_tests db).test_registry.map
              (fun r => r.test_id)) ∧
    (∀ c : ChildRow,
        c ∈ (remove_duplicate_tests db).test_dependencies ↔
          c ∈ db.test_dependencies ∧
            c.test_id ∈ (remove_duplicate_tests db).test_registry.map
              (fun r => r.test_id)) ∧
    (∀ c : ChildRow,
        c ∈ (remove_duplicate_tests db).test_metadata ↔
          c ∈ db.test_metadata ∧
            c.test_id ∈ (remove_duplicate_tests db).test_registry.map
              (fun r => r.test_id)) ∧
    (∀ c : ChildRow,
        c ∈ (remove_duplicate_tests db).test_function_mapping ↔
          c ∈ db.test_function_mapping ∧
            c.test_id ∈ (remove_duplicate_tests db).test_registry.map
              (fun r => r.test_id)) := by
  have hreg : ∀ r : RegistryRow,
      r ∈ (remove_duplicate_tests db).test_registry ↔
        r ∈ db.test_registry ∧ r.test_id ∉ removalIds db.test_registry := by
    intro r
    simp [remove_duplicate_tests, List.mem_filter]
  have hA : ∀ r : RegistryRow,
      r ∈ (remove_duplicate_tests db).test_registry ↔
        r ∈ db.test_registry ∧
          ∀ r' ∈ db.test_registry, dedupKeyOf r' = dedupKeyOf r →
            strLeB r.test_id r'.test_id = true := by
    intro r
    rw [hreg r]
    constructor
    · intro ⟨hr, hnr⟩
      exact ⟨hr, notRemoved_minId db.test_registry r hr hnr⟩
    · intro ⟨hr, hmin⟩
      exact ⟨hr, minId_not_removed db.test_registry hnd r hr hmin⟩
  have hchild : ∀ t : List ChildRow,
      (∀ c ∈ t, ∃ r ∈ db.test_registry, r.test_id = c.test_id) →
      ∀ c : ChildRow,
        c ∈ deleteChild (removalIds db.test_registry) t ↔
          c ∈ t ∧ c.test_id ∈ (remove_duplicate_tests db).test_registry.map
            (fun r => r.test_id) := by
    intro t hfk c
    constructor
    · intro h
      obtain ⟨hct, hdec⟩ := List.mem_filter.mp h
      have hnotin : c.test_id ∉ removalIds db.test_registry :=
        of_decide_eq_true hdec
      obtain ⟨r, hrreg, hrid⟩ := hfk c hct
      refine ⟨hct, List.mem_map.mpr ⟨r, ?_, hrid⟩⟩
      exact (hreg r).mpr ⟨hrreg, by rw [hrid]; exact hnotin⟩
    · intro ⟨hct, hmap⟩
      obtain ⟨r, hrkept, hrid⟩ := List.mem_map.mp hmap
      have hkr := (hreg r).mp hrkept
      refine List.mem_filter.mpr ⟨hct, decide_eq_true ?_⟩
      rw [← hrid]
      exact hkr.2
  refine ⟨hA, ?_, hchild db.reverse_index hfk1, hchild db.test_dependencies hfk2,
    hchild db.test_metadata hfk3, hchild db.test_function_mapping hfk4⟩
  intro r hr
  have hrg : r ∈ groupOf db.test_registry (dedupKeyOf r) :=
    (mem_groupOf _ _ _).mpr ⟨hr, rfl⟩
  rcases hs : sortLeB regLeId (groupOf db.test_registry (dedupKeyOf r))
    with _ | ⟨g, rest⟩
  · exfalso
    have : r ∈ sortLeB regLeId (groupOf db.test_registry (dedupKeyOf r)) :=
      (mem_sortLeB _ _ _).mpr hrg
    rw [hs] at this
    exact absurd this (List.not_mem_nil r)
  · have hgmem : g ∈ groupOf db.test_registry (dedupKeyOf r) := by
      rw [← mem_sortLeB regLeId, hs]
      exact List.mem_cons_self g rest
    obtain ⟨hgr, hgk⟩ := (mem_groupOf _ _ _).mp hgmem
    have hgmin : ∀ r' ∈ db.test_registry, dedupKeyOf r' = dedupKeyOf g →
        strLeB g.test_id r'.test_id = true := by
      intro r' hr' hk'
      have hg' : r' ∈ groupOf db.test_registry (dedupKeyOf r) :=
        (mem_groupOf _ _ _).mpr ⟨hr', by rw [hk', hgk]⟩
      exact sortLeB_head_min regLeId regLeId_total regLeId_trans
        (groupOf db.test_registry (dedupKeyOf r)) g rest hs r' hg'
    exact ⟨g, (hA g).mpr ⟨hgr, hgmin⟩, hgk⟩

/-- A concrete database: the same test indexed from two absolute paths
(both containing `test_repository`), plus an unrelated test, with child
rows for each. -/
def c7db : Db :=
  { test_registry :=
      [{ test_id := "test_0001",
         file_path := "C:/Users/a/Downloads/test_repository/unit/test_nodes.py",
         class_name := some "TestNodes", method_name := "test_run",
         test_type := some "unit" },
       { test_id := "test_0002",
         file_path := "C:/Users/a/OneDrive/test_repository/unit/test_nodes.py",
         class_name := some "TestNodes", method_name := "test_run",
         test_type := some "unit" },
       { test_id := "test_0003", file_path := "unit/test_other.py",
         class_name := none, method_name := "test_misc",
         test_type := some "unit" }]
    reverse_index := [{ rowId := 1, test_id := "test_0001" },
      { rowId := 2, test_id := "test_0002" }]
    test_dependencies := [{ rowId := 3, test_id := "test_0002" }]
    test_metadata := [{ rowId := 4, test_id := "test_0003" }]
    test_function_mapping := [{ rowId := 5, test_id := "test_0002" }] }

theorem c7_dedup_removal_characterization_witness :
    (c7db.test_registry.map (fun r => r.test_id)).Nodup ∧
    (∀ r : RegistryRow,
        r ∈ (remove_duplicate_tests c7db).test_registry ↔
          r ∈ c7db.test_registry ∧
            ∀ r' ∈ c7db.test_registry, dedupKeyOf r' = dedupKeyOf r →
              strLeB r.test_id r'.test_id = true) ∧
    (∀ c : ChildRow,
        c ∈ (remove_duplicate_tests c7db).test_function_mapping ↔
          c ∈ c7db.test_function_mapping ∧
            c.test_id ∈ (remove_duplicate_tests c7db).test_registry.map
              (fun r => r.test_id)) :=
  ⟨by decide,
   (c7_dedup_removal_characterization c7db (by decide) (by decide) (by decide)
      (by decide) (by decide)).1,
   (c7_dedup_removal_characterization c7db (by decide) (by decide) (by decide)
      (by decide) (by decide)).2.2.2.2.2⟩

/-- Evaluation check: in `c7db` the duplicate group keeps `test_0001`
(the lowest id) and marks `test_0002` for removal. -/
theorem c7db_removalIds_eval : removalIds c7db.test_registry = ["test_0002"] := by
  decide
